import Mathlib

/-!
# Verification of the dungeon-gen tile-grid generator

Shallow embedding of the Go package `generate` (file `generate.go` of the
repository): the `World` record, the bounds-checked tile accessors, the
post-processing passes `AddWalls` and `CleanWalls`, and the three
generators `GenerateRandomWalk`, `GenerateDungeonGrid` and
`GenerateDungeon`.

Modelling conventions:
* Go `int` is embedded as `Int`; Go's truncated division `/` and
  remainder `%` are `Int.tdiv` / `Int.tmod` (on the non-negative values
  produced by `rand.Int()` we use `Nat` and `%`).
* The tile buffer `Tiles [][]Tile` (indexed `[y][x]`) is embedded as a
  total function `Int → Int → Tile` (row index first); `SetTile`
  updates it pointwise.  Allocation bounds are not modelled: on the
  executions the claims are about, the Go code never indexes outside
  the allocated buffer.
* The process-wide `rand.Rand` source is an oracle stream
  `rnd : Nat → Nat` consumed at an explicit counter, mirroring each
  `rng.Int()` call site in order.  `rand.Int` never returns a negative
  value, hence the `Nat` codomain.
* The two wall-clock tests at the top of every generation loop
  (`DurationBeforeError`, `DurationBeforeRetry`) are abstracted into an
  oracle stream `tmr : Nat → TimerSignal`, one signal per loop
  iteration: `terr` fires the fatal timeout, `tretry` fires the
  retry-the-attempt branch, `tok` proceeds.
* The recursive retry closures `g` are embedded with explicit fuel;
  running out of fuel yields the timeout error (never success), which
  is sound for every claim conditioned on a successful return.
-/

/-- The `Tile` enumeration of the source (`TileVoid`, `TileWall`,
`TilePreWall`, `TileFloor`). -/
inductive Tile where
  | void : Tile
  | wall : Tile
  | preWall : Tile
  | floor : Tile
deriving DecidableEq, Repr

/-- The error values of the source package (`ErrOutOfBounds`,
`ErrNotEnoughSpace`, `ErrGenerationTimeout`, `ErrFloorAlreadyPlaced`). -/
inductive GenErr where
  | outOfBounds : GenErr
  | notEnoughSpace : GenErr
  | generationTimeout : GenErr
  | floorAlreadyPlaced : GenErr
deriving DecidableEq, Repr

/-- Outcome of the pair of wall-clock checks performed at the top of each
generation loop iteration: fatal timeout (`DurationBeforeError`),
retry-the-attempt (`DurationBeforeRetry`), or proceed. -/
inductive TimerSignal where
  | terr : TimerSignal
  | tretry : TimerSignal
  | tok : TimerSignal
deriving DecidableEq, Repr

/-- The `World` record of the source.  `tiles` is the `[y][x]`-indexed
buffer as a total function (row first); the wall-clock fields are
abstracted into the timer oracle and omitted. -/
structure World where
  width : Int
  height : Int
  tiles : Int → Int → Tile
  border : Int
  wallThickness : Int
  corridorSize : Int
  allowRandomCorridorOffset : Bool
  maxRoomWidth : Int
  maxRoomHeight : Int
  minRoomWidth : Int
  minRoomHeight : Int

/-- Pointwise update of the tile buffer: `Tiles[y][x] = t`. -/
def updTile (f : Int → Int → Tile) (y x : Int) (t : Tile) : Int → Int → Tile :=
  fun y' x' => if y' = y ∧ x' = x then t else f y' x'

/-- The bounds test shared by `GetTile` and `SetTile`:
`x >= w-b || x < 0+b || y >= h-b || y < 0+b`. -/
def oobCheck (w h b x y : Int) : Bool :=
  decide (x ≥ w - b) || decide (x < 0 + b) || decide (y ≥ h - b) || decide (y < 0 + b)

/-- `GetTile` of the source: out-of-bounds coordinates (relative to the
current `Border`) yield `ErrOutOfBounds`, otherwise the stored tile. -/
def GetTile (world : World) (x y : Int) : Except GenErr Tile :=
  if oobCheck world.width world.height world.border x y then
    Except.error GenErr.outOfBounds
  else
    Except.ok (world.tiles y x)

/-- `SetTile` of the source: the bounds check is enforced only for
`TileFloor`; every other tile value is written unconditionally. -/
def SetTile (world : World) (x y : Int) (t : Tile) : Except GenErr Unit × World :=
  if t = Tile.floor ∧ oobCheck world.width world.height world.border x y then
    (Except.error GenErr.outOfBounds, world)
  else
    (Except.ok (), { world with tiles := updTile world.tiles y x t })

/-- `ClearTiles` of the source: reallocates the buffer, so every cell
reads `TileVoid` afterwards.  The requested dimensions do not change the
`Width`/`Height` fields (the Go method only swaps the slice). -/
def ClearTiles (world : World) (_width _height : Int) : World :=
  { world with tiles := fun _ _ => Tile.void }

/-- `minInt` helper of the source. -/
def minInt (a b : Int) : Int := if a < b then a else b

/-- `maxInt` helper of the source. -/
def maxInt (a b : Int) : Int := if a > b then a else b

/-- `randInt(a, b)` of the source: `rng.Int()%(b+1-a) + a`, where `r` is
the non-negative value drawn from the stream. -/
def randInt (r : Nat) (a b : Int) : Int :=
  (r : Int).tmod (b + 1 - a) + a

/-- The index list of a Go loop `for v := lo; v < hi; v++`. -/
def intRange (lo hi : Int) : List Int :=
  (List.range (hi - lo).toNat).map fun (i : Nat) => lo + (i : Int)

/-- Row-major cell list of the double scan
`for y := 0; y < h; y++ { for x := 0; x < w; x++ }`, as `(x, y)` pairs. -/
def rowMajor (w h : Int) : List (Int × Int) :=
  (intRange 0 h).flatMap fun y => (intRange 0 w).map fun x => (x, y)

/-- Neighborhood write of `AddWalls` for a single floor cell `(x, y)`:
`for dx := -t; dx <= t; dx++ { for dy := -t; dy <= t; dy++ }`, turning
every readable `TileVoid` cell into `TileWall`. -/
def awNbhd (t : Int) (x y : Int) (w : World) : World :=
  (intRange (-t) (t + 1)).foldl
    (fun w1 dx =>
      (intRange (-t) (t + 1)).foldl
        (fun w2 dy =>
          match GetTile w2 (x + dx) (y + dy) with
          | Except.ok Tile.void => (SetTile w2 (x + dx) (y + dy) Tile.wall).2
          | _ => w2)
        w1)
    w

/-- Body of the `AddWalls` scan at one cell. -/
def awCell (t : Int) (w : World) (p : Int × Int) : World :=
  match GetTile w p.1 p.2 with
  | Except.ok Tile.floor => awNbhd t p.1 p.2 w
  | Except.ok Tile.preWall => (SetTile w p.1 p.2 Tile.wall).2
  | _ => w

/-- `AddWalls` of the source: temporarily sets `Border` to 0, scans the
whole buffer row-major, thickens walls around floors and converts
`TilePreWall` to `TileWall`, then restores the border. -/
def AddWalls (world : World) : World :=
  let wd := world.width
  let ht := world.height
  let t := world.wallThickness
  let b := world.border
  let w0 : World := { world with border := 0 }
  let w1 := (rowMajor wd ht).foldl (fun w p => awCell t w p) w0
  { w1 with border := b }

/-- The eight neighbor offsets scanned by `CleanWalls`
(`dx` outer, `dy` inner, skipping `(0,0)`). -/
def nbhd8 : List (Int × Int) :=
  [(-1, -1), (-1, 0), (-1, 1), (0, -1), (0, 1), (1, -1), (1, 0), (1, 1)]

/-- Whether a `GetTile` result is a successful floor read
(`err == nil && tile == TileFloor`). -/
def isOkFloor (r : Except GenErr Tile) : Bool :=
  match r with
  | Except.ok Tile.floor => true
  | _ => false

/-- Number of readable `TileFloor` neighbors of `(x, y)`, as counted by
`CleanWalls`. -/
def cwCount (w : World) (x y : Int) : Nat :=
  nbhd8.countP fun d => isOkFloor (GetTile w (x + d.1) (y + d.2))

/-- Body of the `CleanWalls` scan at one cell: a readable `TileWall`
with at least `mustSurroundCount` floor neighbors becomes `TileFloor`. -/
def cwStep (k : Int) (w : World) (p : Int × Int) : World :=
  match GetTile w p.1 p.2 with
  | Except.ok Tile.wall =>
      if (cwCount w p.1 p.2 : Int) ≥ k then (SetTile w p.1 p.2 Tile.floor).2 else w
  | _ => w

/-- `CleanWalls` of the source: a single in-place row-major pass. -/
def CleanWalls (world : World) (mustSurroundCount : Int) : World :=
  (rowMajor world.width world.height).foldl (cwStep mustSurroundCount) world

/-- The `corridorSize × corridorSize` block carved around the cursor
`(x, y)` by `GenerateRandomWalk`
(`for dx := x-cs/2; dx < x+cs/2 { for dy := y-cs/2; dy < y+cs/2 }`),
as absolute coordinates in source iteration order. -/
def rwBlockCells (x y cs : Int) : List (Int × Int) :=
  (intRange (x - cs.tdiv 2) (x + cs.tdiv 2)).flatMap fun dx =>
    (intRange (y - cs.tdiv 2) (y + cs.tdiv 2)).map fun dy => (dx, dy)

/-- One block-carving pass of the random walk: returns the updated
world, the updated tile counter `tc`, and whether the block was
abandoned by the `goto cont` branch (an out-of-bounds floor write). -/
def rwBlock : List (Int × Int) → World → Int → World × Int × Bool
  | [], w, tc => (w, tc, false)
  | c :: rest, w, tc =>
    let tc1 := tc + 1
    match GetTile w c.1 c.2 with
    | Except.ok t =>
      if t ≠ Tile.void then rwBlock rest w (tc1 - 1)
      else
        match SetTile w c.1 c.2 Tile.floor with
        | (Except.error _, w') => (w', tc1 - 1, true)
        | (Except.ok _, w') => rwBlock rest w' tc1
    | Except.error _ =>
      match SetTile w c.1 c.2 Tile.floor with
      | (Except.error _, w') => (w', tc1 - 1, true)
      | (Except.ok _, w') => rwBlock rest w' tc1

/-- Result of the random-walk carving loop: the loop ran to completion
(returning the final world, cursor bounding box and oracle counters),
hit the fatal timeout, requested a whole-attempt retry, or ran out of
fuel. -/
inductive RWLoopOut where
  | done (w : World) (minX maxX minY maxY : Int) (rk tk : Nat) : RWLoopOut
  | fail (w : World) : RWLoopOut
  | retryRq (w : World) (rk tk : Nat) : RWLoopOut
  | noFuel (w : World) : RWLoopOut

/-- The carving loop `for tc := 0; tc < tileCount` of
`GenerateRandomWalk`: move the cursor one random step, carve the block,
and track the cursor bounding box of fully carved blocks. -/
def rwLoop (wd ht cs : Int) (tileCount : Int) :
    Nat → World → Int → Int → Int → Int → Int → Int → Int →
    (Nat → Nat) → (Nat → TimerSignal) → Nat → Nat → RWLoopOut
  | 0, w, _, _, _, _, _, _, _, _, _, _, _ => RWLoopOut.noFuel w
  | fuel + 1, w, x, y, minX, maxX, minY, maxY, tc, rnd, tmr, rk, tk =>
    if tc < tileCount then
      match tmr tk with
      | TimerSignal.terr => RWLoopOut.fail w
      | TimerSignal.tretry => RWLoopOut.retryRq w rk (tk + 1)
      | TimerSignal.tok =>
        let d := rnd rk % 4
        let x1 := if d = 0 then x - 1 else if d = 1 then x + 1 else x
        let y1 := if d = 2 then y - 1 else if d = 3 then y + 1 else y
        match rwBlock (rwBlockCells x1 y1 cs) w tc with
        | (w', tc', aborted) =>
          if aborted then
            rwLoop wd ht cs tileCount fuel w' (wd.tdiv 2) (ht.tdiv 2)
              minX maxX minY maxY tc' rnd tmr (rk + 1) (tk + 1)
          else
            rwLoop wd ht cs tileCount fuel w' x1 y1
              (minInt minX x1) (maxInt maxX x1) (minInt minY y1) (maxInt maxY y1)
              tc' rnd tmr (rk + 1) (tk + 1)
    else
      RWLoopOut.done w minX maxX minY maxY rk tk

/-- The midline "convexity" scan of `GenerateRandomWalk`: walk the row
`cy` from `minX` to `maxX-1` looking for floor, then a void gap, then
floor again. -/
def convScan (w : World) (cy : Int) : List Int → Bool → Bool → Bool
  | [], _, _ => false
  | cx :: rest, foundFloor, inGap =>
    match GetTile w cx cy with
    | Except.ok Tile.floor =>
      if foundFloor ∧ inGap then true else convScan w cy rest true inGap
    | Except.ok Tile.void =>
      convScan w cy rest foundFloor (if foundFloor then true else inGap)
    | _ => convScan w cy rest foundFloor inGap

/-- The recursive attempt closure `g` of `GenerateRandomWalk`: clear the
tiles, run the carving loop, then validate bounds and convexity,
retrying on failure. -/
def rwGen (tileCount : Int) (rnd : Nat → Nat) (tmr : Nat → TimerSignal) (fuelL : Nat) :
    Nat → World → Nat → Nat → Except GenErr Unit × World
  | 0, w, _, _ => (Except.error GenErr.generationTimeout, w)
  | fuelR + 1, w, rk, tk =>
    let wd := w.width
    let ht := w.height
    let w1 := ClearTiles w w.width w.height
    match rwLoop wd ht w1.corridorSize tileCount fuelL w1
        (wd.tdiv 2) (ht.tdiv 2) wd 0 ht 0 0 rnd tmr rk tk with
    | RWLoopOut.noFuel w' => (Except.error GenErr.generationTimeout, w')
    | RWLoopOut.fail w' => (Except.error GenErr.generationTimeout, w')
    | RWLoopOut.retryRq w' rk' tk' => rwGen tileCount rnd tmr fuelL fuelR w' rk' tk'
    | RWLoopOut.done w' minX maxX minY maxY rk' tk' =>
      if maxX - minX < wd.tdiv 2 ∧ maxY - minY < ht.tdiv 2 then
        rwGen tileCount rnd tmr fuelL fuelR w' rk' tk'
      else
        let cy := minY + (maxY - minY).tdiv 2
        let w2 := (SetTile w' 0 cy Tile.wall).2
        let convX := convScan w2 cy (intRange minX maxX) false false
        let convY := false
        if ¬(convX ∨ convY) then rwGen tileCount rnd tmr fuelL fuelR w2 rk' tk'
        else (Except.ok (), w2)

/-- `GenerateRandomWalk` of the source, relative to the random and
timer oracles and the retry/loop fuel. -/
def GenerateRandomWalk (world : World) (tileCount : Int) (rnd : Nat → Nat)
    (tmr : Nat → TimerSignal) (fuelR fuelL : Nat) : Except GenErr Unit × World :=
  rwGen tileCount rnd tmr fuelL fuelR world 0 0

/-- The internal `coord` record of the source (lattice or pixel
position plus room size for the freeform generator). -/
structure Coord where
  x : Int
  y : Int
  w : Int
  h : Int
deriving DecidableEq, Repr

/-- The occupied-cell lattice `rooms [][]bool` of `GenerateDungeonGrid`,
as a total function (row `iy` first). -/
def markRoom (rooms : Int → Int → Bool) (iy ix : Int) : Int → Int → Bool :=
  fun iy' ix' => if iy' = iy ∧ ix' = ix then true else rooms iy' ix'

/-- `countAdj(iy, ix)` of `GenerateDungeonGrid`: the number of occupied
4-neighbors of a lattice cell, with the source's bounds guards. -/
def countAdj (rooms : Int → Int → Bool) (mw mh iy ix : Int) : Nat :=
  (if iy > 0 ∧ rooms (iy - 1) ix then 1 else 0) +
  (if iy + 1 < mh ∧ rooms (iy + 1) ix then 1 else 0) +
  (if ix > 0 ∧ rooms iy (ix - 1) then 1 else 0) +
  (if ix + 1 < mw ∧ rooms iy (ix + 1) then 1 else 0)

/-- Append a coordinate to the last run:
`previousRooms[len(previousRooms)-1] = append(..., coord{x: sx, y: sy})`. -/
def appendLastRun (runs : List (List Coord)) (c : Coord) : List (List Coord) :=
  runs.dropLast ++ [runs.getLastD [] ++ [c]]

/-- Result of the lattice placement loop of `GenerateDungeonGrid`. -/
inductive GridLoopOut where
  | done (rooms : Int → Int → Bool) (runs : List (List Coord)) (rk tk : Nat) : GridLoopOut
  | fail (e : GenErr) : GridLoopOut
  | retryRq (rk tk : Nat) : GridLoopOut
  | noFuel : GridLoopOut

/-- The lattice placement loop `for rc := roomCount; rc > 0; rc--` of
`GenerateDungeonGrid`: a random cardinal walk over the lattice with the
source's rejection test and backtracking scan over all recorded runs. -/
def gridLoop (mw mh : Int) (rnd : Nat → Nat) (tmr : Nat → TimerSignal) :
    Nat → Int → Int → Int → (Int → Int → Bool) → List (List Coord) → Nat → Nat → GridLoopOut
  | 0, _, _, _, _, _, _, _ => GridLoopOut.noFuel
  | fuel + 1, rc, sx, sy, rooms, runs, rk, tk =>
    if rc > 0 then
      match tmr tk with
      | TimerSignal.terr => GridLoopOut.fail GenErr.generationTimeout
      | TimerSignal.tretry => GridLoopOut.retryRq rk (tk + 1)
      | TimerSignal.tok =>
        let d := rnd rk % 4
        let sx1 := if d = 0 then sx - 1 else if d = 1 then sx + 1 else sx
        let sy1 := if d = 2 then sy - 1 else if d = 3 then sy + 1 else sy
        if sx1 ≥ mw - 1 ∨ sx1 ≤ 0 ∨ sy1 ≥ mh - 1 ∨ sy1 ≤ 0 ∨
            ((countAdj rooms mw mh sy1 sx1 : Int) ≥ 2 ∧ rooms sy1 sx1) then
          match runs.flatten.find? fun c =>
              decide ((countAdj rooms mw mh c.y c.x : Int) ≥ 0) &&
              decide ((countAdj rooms mw mh c.y c.x : Int) ≤ 2) with
          | some c =>
            gridLoop mw mh rnd tmr fuel rc c.x c.y (markRoom rooms c.y c.x)
              (appendLastRun (runs ++ [[]]) (Coord.mk c.x c.y 0 0)) (rk + 1) (tk + 1)
          | none => GridLoopOut.fail GenErr.notEnoughSpace
        else
          gridLoop mw mh rnd tmr fuel (rc - 1) sx1 sy1 (markRoom rooms sy1 sx1)
            (appendLastRun runs (Coord.mk sx1 sy1 0 0)) (rk + 1) (tk + 1)
    else
      GridLoopOut.done rooms runs rk tk

/-- The room fill of the materialization phase of `GenerateDungeonGrid`:
an `MaxRoomWidth × MaxRoomWidth` square of floor for lattice cell
`(sx, sy)`. -/
def gridRoomFill (s mrw wt : Int) (w : World) (sx sy : Int) : World :=
  (intRange ((-mrw).tdiv 2) (mrw.tdiv 2)).foldl
    (fun w1 dx =>
      (intRange ((-mrw).tdiv 2) (mrw.tdiv 2)).foldl
        (fun w2 dy =>
          (SetTile w2 (sx * s + dx + sx * wt) (sy * s + dy + sy * wt) Tile.floor).2)
        w1)
    w

/-- The corridor of the materialization phase of `GenerateDungeonGrid`
joining consecutive run cells `prev` and `cur`; consumes two random
values when the random corridor offset is enabled. -/
def gridCorridor (s cs wt : Int) (offsetOn : Bool) (rnd : Nat → Nat)
    (w : World) (prev cur : Coord) (rk : Nat) : World × Nat :=
  let dx := cur.x - prev.x
  let dy := cur.y - prev.y
  let x1 := prev.x * s
  let x2 := cur.x * s
  let y1 := prev.y * s
  let y2 := cur.y * s
  let mrw := w.maxRoomWidth
  let oCy0 := mrw - cs
  let offsetCy := if offsetOn then randInt (rnd rk) ((-oCy0).tdiv 2) (oCy0.tdiv 2) else 0
  let oCx0 := mrw - cs
  let offsetCx := if offsetOn then randInt (rnd (rk + 1)) ((-oCx0).tdiv 2) (oCx0.tdiv 2) else 0
  let rk' := if offsetOn then rk + 2 else rk
  let q : Int × Int × Int × Int :=
    if dx = -1 then (x2, x1, y1 - cs.tdiv 2 - offsetCy, y2 + cs.tdiv 2 - offsetCy)
    else if dx = 1 then (x1, x2, y1 - cs.tdiv 2 - offsetCy, y2 + cs.tdiv 2 - offsetCy)
    else if dy = -1 then (x1 - cs.tdiv 2 - offsetCx, x2 + cs.tdiv 2 - offsetCx, y2, y1)
    else if dy = 1 then (x1 - cs.tdiv 2 - offsetCx, x2 + cs.tdiv 2 - offsetCx, y1, y2)
    else (x1, x2, y1, y2)
  let w' :=
    (intRange q.1 q.2.1).foldl
      (fun w1 x =>
        (intRange q.2.2.1 q.2.2.2).foldl
          (fun w2 y => (SetTile w2 (x + cur.x * wt) (y + cur.y * wt) Tile.floor).2)
          w1)
      w
  (w', rk')

/-- Materialization of a single run of `GenerateDungeonGrid`: fill each
room, and join each cell after the first to its predecessor. -/
def gridRunMat (s cs wt : Int) (offsetOn : Bool) (rnd : Nat → Nat) :
    List Coord → Option Coord → World → Nat → World × Nat
  | [], _, w, rk => (w, rk)
  | cur :: rest, prevC, w, rk =>
    let w1 := gridRoomFill s w.maxRoomWidth wt w cur.x cur.y
    match prevC with
    | none => gridRunMat s cs wt offsetOn rnd rest (some cur) w1 rk
    | some prev =>
      match gridCorridor s cs wt offsetOn rnd w1 prev cur rk with
      | (w2, rk') => gridRunMat s cs wt offsetOn rnd rest (some cur) w2 rk'

/-- Materialization phase of `GenerateDungeonGrid` over all recorded
runs. -/
def gridMaterialize (s cs wt : Int) (offsetOn : Bool) (rnd : Nat → Nat)
    (runs : List (List Coord)) (w : World) (rk : Nat) : World × Nat :=
  runs.foldl (fun acc run => gridRunMat s cs wt offsetOn rnd run none acc.1 acc.2) (w, rk)

/-- The recursive attempt closure `g` of `GenerateDungeonGrid`: clear
the tiles, run the placement loop, then materialize rooms and
corridors.  On success it also returns the lattice as it stood when the
placement loop ended. -/
def gridAttempt (roomCount mw mh s : Int) (rnd : Nat → Nat) (tmr : Nat → TimerSignal)
    (fuelL : Nat) :
    Nat → World → Nat → Nat → Except GenErr (Int → Int → Bool) × World
  | 0, w, _, _ => (Except.error GenErr.generationTimeout, w)
  | fuelR + 1, w, rk, tk =>
    let w1 := ClearTiles w w.width w.height
    match gridLoop mw mh rnd tmr fuelL roomCount (mw.tdiv 2) (mh.tdiv 2)
        (fun _ _ => false) [[]] rk tk with
    | GridLoopOut.noFuel => (Except.error GenErr.generationTimeout, w1)
    | GridLoopOut.fail e => (Except.error e, w1)
    | GridLoopOut.retryRq rk' tk' => gridAttempt roomCount mw mh s rnd tmr fuelL fuelR w1 rk' tk'
    | GridLoopOut.done rooms runs rk' _ =>
      match gridMaterialize s w1.corridorSize w1.wallThickness
          w1.allowRandomCorridorOffset rnd runs w1 rk' with
      | (w2, _) => (Except.ok rooms, w2)

/-- `GenerateDungeonGrid` of the source: capacity precondition first,
then the retrying attempt.  The returned lattice of the successful
attempt is discarded, as in the source. -/
def GenerateDungeonGrid (world : World) (roomCount : Int) (rnd : Nat → Nat)
    (tmr : Nat → TimerSignal) (fuelR fuelL : Nat) : Except GenErr Unit × World :=
  let s := world.maxRoomWidth
  let mw := (world.width - world.border * 2).tdiv s
  let mh := (world.height - world.border * 2).tdiv s
  if roomCount > (mw - 2) * (mh - 2) then
    (Except.error GenErr.notEnoughSpace, world)
  else
    match gridAttempt roomCount mw mh s rnd tmr fuelL fuelR world 0 0 with
    | (Except.ok _, w') => (Except.ok (), w')
    | (Except.error e, w') => (Except.error e, w')

/-- The footprint offsets scanned by `placeRoom` (`dx` outer, `dy`
inner): `for dx := -w/2 - WT; dx <= w/2-1+WT { for dy := -h/2 - WT; dy <= h/2-1+WT }`. -/
def roomFootprint (rw rh wt : Int) : List (Int × Int) :=
  (intRange ((-rw).tdiv 2 - wt) (rw.tdiv 2 + wt)).flatMap fun dx =>
    (intRange ((-rh).tdiv 2 - wt) (rh.tdiv 2 + wt)).map fun dy => (dx, dy)

/-- Check phase of `placeRoom`: scan the full footprint; a pre-existing
floor yields `ErrFloorAlreadyPlaced`, an unreadable cell propagates its
read error.  Returns the first error, if any. -/
def prCheck (w : World) (x y : Int) : List (Int × Int) → Option GenErr
  | [] => none
  | d :: rest =>
    match GetTile w (x + d.1) (y + d.2) with
    | Except.ok Tile.floor => some GenErr.floorAlreadyPlaced
    | Except.ok _ => prCheck w x y rest
    | Except.error e => some e

/-- Write phase of `placeRoom`: perimeter cells that are still void get
`TilePreWall`, interior cells get `TileFloor`; a failing write aborts
the phase with its error. -/
def prPlace (x y rw rh wt : Int) : List (Int × Int) → World → Except GenErr Unit × World
  | [], w => (Except.ok (), w)
  | d :: rest, w =>
    if d.1 < (-rw).tdiv 2 ∨ d.1 > rw.tdiv 2 - 1 ∨ d.2 < (-rh).tdiv 2 ∨ d.2 > rh.tdiv 2 - 1 then
      match GetTile w (x + d.1) (y + d.2) with
      | Except.ok Tile.void =>
        match SetTile w (x + d.1) (y + d.2) Tile.preWall with
        | (Except.error e, w') => (Except.error e, w')
        | (Except.ok _, w') => prPlace x y rw rh wt rest w'
      | _ => prPlace x y rw rh wt rest w
    else
      match SetTile w (x + d.1) (y + d.2) Tile.floor with
      | (Except.error e, w') => (Except.error e, w')
      | (Except.ok _, w') => prPlace x y rw rh wt rest w'

/-- `placeRoom(x, y, w, h)`, the helper closure of `GenerateDungeon`:
full-footprint collision scan first, writes only if the scan is clean. -/
def placeRoom (w : World) (x y rw rh : Int) : Except GenErr Unit × World :=
  match prCheck w x y (roomFootprint rw rh w.wallThickness) with
  | some e => (Except.error e, w)
  | none => prPlace x y rw rh w.wallThickness (roomFootprint rw rh w.wallThickness) w

/-- Corridor carving of `GenerateDungeon`: floor over every readable
non-floor cell of the corridor rectangle, write errors ignored. -/
def dgCorridor (w : World) (cx cy cw ch : Int) : World :=
  (intRange cx (cx + cw)).foldl
    (fun w1 x =>
      (intRange cy (cy + ch)).foldl
        (fun w2 y =>
          match GetTile w2 x y with
          | Except.ok t =>
            if t ≠ Tile.floor then (SetTile w2 x y Tile.floor).2 else w2
          | Except.error _ => w2)
        w1)
    w

/-- Result of the room placement loop of `GenerateDungeon`. -/
inductive DgLoopOut where
  | done (w : World) (rk tk : Nat) : DgLoopOut
  | fail (e : GenErr) (w : World) : DgLoopOut
  | retryRq (w : World) (rk tk : Nat) : DgLoopOut
  | noFuel (w : World) : DgLoopOut

/-- The room placement loop `for rc := roomCount - 1; rc > 0; rc--` of
`GenerateDungeon`: pick a random size and direction, anchor the new
room next to the previous one, place it, roll back to a random earlier
room on collision, carve the corridor on success. -/
def dgLoop (cs wt minW maxW minH maxH : Int) (offsetOn : Bool)
    (rnd : Nat → Nat) (tmr : Nat → TimerSignal) :
    Nat → World → Int → Int → Int → Int → Int → List Coord → Nat → Nat → DgLoopOut
  | 0, w, _, _, _, _, _, _, _, _ => DgLoopOut.noFuel w
  | fuel + 1, w, rc, sx, sy, rw, rh, prevRooms, rk, tk =>
    if rc > 0 then
      match tmr tk with
      | TimerSignal.terr => DgLoopOut.fail GenErr.generationTimeout w
      | TimerSignal.tretry => DgLoopOut.retryRq w rk (tk + 1)
      | TimerSignal.tok =>
        let osx := sx
        let osy := sy
        let orw := rw
        let orh := rh
        let rw1 := randInt (rnd rk) minW maxW
        let rh1 := randInt (rnd (rk + 1)) minH maxH
        let rk1 := rk + 2
        let oCy0 := minInt rh1 orh - 0
        let offsetCy := if offsetOn then
            randInt (rnd rk1) ((-oCy0).tdiv 2 + cs.tdiv 2) (oCy0.tdiv 2 - cs.tdiv 2)
          else 0
        let oCx0 := minInt rw1 orw - 0
        let offsetCx := if offsetOn then
            randInt (rnd (rk1 + 1)) ((-oCx0).tdiv 2 + cs.tdiv 2) (oCx0.tdiv 2 - cs.tdiv 2)
          else 0
        let rk2 := if offsetOn then rk1 + 2 else rk1
        let d := rnd rk2 % 4
        let rk3 := rk2 + 1
        let q : Int × Int × Int × Int × Int × Int :=
          if d = 0 then
            let sx' := sx - orw.tdiv 2 - wt - rw1.tdiv 2
            (sx', sy, sx' + rw1.tdiv 2, osy - cs.tdiv 2 + offsetCy, wt, cs)
          else if d = 1 then
            let sx' := sx + orw.tdiv 2 + wt + rw1.tdiv 2
            (sx', sy, sx' - rw1.tdiv 2 - wt, osy - cs.tdiv 2 + offsetCy, wt, cs)
          else if d = 2 then
            let sy' := sy - orh.tdiv 2 - wt - rh1.tdiv 2
            (sx, sy', osx - cs.tdiv 2 + offsetCx, sy' + rh1.tdiv 2, cs, wt)
          else
            let sy' := sy + orh.tdiv 2 + wt + rh1.tdiv 2
            (sx, sy', osx - cs.tdiv 2 + offsetCx, sy' - rh1.tdiv 2 - wt, cs, wt)
        match q with
        | (sx1, sy1, cx, cy, cw, ch) =>
          match placeRoom w sx1 sy1 rw1 rh1 with
          | (Except.error _, w') =>
            let c := prevRooms.getD (rnd rk3 % prevRooms.length) (Coord.mk 0 0 0 0)
            dgLoop cs wt minW maxW minH maxH offsetOn rnd tmr fuel w' rc
              c.x c.y c.w c.h prevRooms (rk3 + 1) (tk + 1)
          | (Except.ok _, w') =>
            let w'' := dgCorridor w' cx cy cw ch
            dgLoop cs wt minW maxW minH maxH offsetOn rnd tmr fuel w'' (rc - 1)
              sx1 sy1 rw1 rh1 (prevRooms ++ [Coord.mk sx1 sy1 rw1 rh1]) rk3 (tk + 1)
    else
      DgLoopOut.done w rk tk

/-- The recursive attempt closure `g` of `GenerateDungeon`: clear the
tiles, place the first room at the grid center (its result is ignored,
as in the source), then run the placement loop. -/
def dgAttempt (roomCount : Int) (rnd : Nat → Nat) (tmr : Nat → TimerSignal) (fuelL : Nat) :
    Nat → World → Nat → Nat → Except GenErr Unit × World
  | 0, w, _, _ => (Except.error GenErr.generationTimeout, w)
  | fuelR + 1, w, rk, tk =>
    let w1 := ClearTiles w w.width w.height
    let sx := w.width.tdiv 2
    let sy := w.height.tdiv 2
    let rw0 := randInt (rnd rk) w.minRoomWidth w.maxRoomWidth
    let rh0 := randInt (rnd (rk + 1)) w.minRoomHeight w.maxRoomHeight
    let w2 := (placeRoom w1 sx sy rw0 rh0).2
    match dgLoop w.corridorSize w.wallThickness w.minRoomWidth w.maxRoomWidth
        w.minRoomHeight w.maxRoomHeight w.allowRandomCorridorOffset rnd tmr
        fuelL w2 (roomCount - 1) sx sy rw0 rh0 [Coord.mk 0 0 0 0] (rk + 2) tk with
    | DgLoopOut.noFuel w' => (Except.error GenErr.generationTimeout, w')
    | DgLoopOut.fail e w' => (Except.error e, w')
    | DgLoopOut.retryRq w' rk' tk' => dgAttempt roomCount rnd tmr fuelL fuelR w' rk' tk'
    | DgLoopOut.done w' _ _ => (Except.ok (), w')

/-- `GenerateDungeon` of the source: same capacity precondition as the
grid generator, then the retrying attempt. -/
def GenerateDungeon (world : World) (roomCount : Int) (rnd : Nat → Nat)
    (tmr : Nat → TimerSignal) (fuelR fuelL : Nat) : Except GenErr Unit × World :=
  let s := world.maxRoomWidth
  let mw := (world.width - world.border * 2).tdiv s
  let mh := (world.height - world.border * 2).tdiv s
  if roomCount > (mw - 2) * (mh - 2) then
    (Except.error GenErr.notEnoughSpace, world)
  else
    dgAttempt roomCount rnd tmr fuelL fuelR world 0 0

/-- One public operation on a `World`, bundling the oracle streams and
fuel a generator call needs. -/
inductive WorldOp where
  | opSetTile (x y : Int) (t : Tile) : WorldOp
  | opGetTile (x y : Int) : WorldOp
  | opAddWalls : WorldOp
  | opCleanWalls (k : Int) : WorldOp
  | opGenerateRandomWalk (n : Int) (rnd : Nat → Nat) (tmr : Nat → TimerSignal)
      (fuelR fuelL : Nat) : WorldOp
  | opGenerateDungeonGrid (n : Int) (rnd : Nat → Nat) (tmr : Nat → TimerSignal)
      (fuelR fuelL : Nat) : WorldOp
  | opGenerateDungeon (n : Int) (rnd : Nat → Nat) (tmr : Nat → TimerSignal)
      (fuelR fuelL : Nat) : WorldOp

/-- State effect of one public operation (`GetTile` reads only). -/
def applyOp (w : World) : WorldOp → World
  | WorldOp.opSetTile x y t => (SetTile w x y t).2
  | WorldOp.opGetTile _ _ => w
  | WorldOp.opAddWalls => AddWalls w
  | WorldOp.opCleanWalls k => CleanWalls w k
  | WorldOp.opGenerateRandomWalk n rnd tmr fuelR fuelL =>
      (GenerateRandomWalk w n rnd tmr fuelR fuelL).2
  | WorldOp.opGenerateDungeonGrid n rnd tmr fuelR fuelL =>
      (GenerateDungeonGrid w n rnd tmr fuelR fuelL).2
  | WorldOp.opGenerateDungeon n rnd tmr fuelR fuelL =>
      (GenerateDungeon w n rnd tmr fuelR fuelL).2

/-- State effect of a sequence of public operations. -/
def applyOps (w : World) (ops : List WorldOp) : World :=
  ops.foldl applyOp w

/-- The border invariant of the spec: no cell outside the playable area
`[Border, dimension-Border)` holds `TileFloor`. -/
def floorInv (w : World) : Prop :=
  ∀ x y : Int, oobCheck w.width w.height w.border x y = true → w.tiles y x ≠ Tile.floor

/-- The 8×8 default-configured world used as a concrete test vehicle
(`NewWorld` defaults: border 2, wall thickness 2, corridor size 2, room
sizes 4–8), with an all-void buffer. -/
def sampleWorld : World :=
  { width := 8, height := 8, tiles := fun _ _ => Tile.void, border := 2,
    wallThickness := 2, corridorSize := 2, allowRandomCorridorOffset := false,
    maxRoomWidth := 8, maxRoomHeight := 8, minRoomWidth := 4, minRoomHeight := 4 }

/-- `SetTile` never changes the scalar configuration fields. -/
theorem SetTile_frame (w : World) (x y : Int) (t : Tile) :
    (SetTile w x y t).2.width = w.width ∧ (SetTile w x y t).2.height = w.height ∧
    (SetTile w x y t).2.border = w.border ∧
    (SetTile w x y t).2.corridorSize = w.corridorSize ∧
    (SetTile w x y t).2.wallThickness = w.wallThickness := by
  unfold SetTile
  by_cases h : t = Tile.floor ∧ oobCheck w.width w.height w.border x y
  · simp [h]
  · simp [h]

/-- A `SetTile` of a non-floor tile always succeeds and performs the
pointwise update. -/
theorem SetTile_nonfloor (w : World) (x y : Int) (t : Tile) (ht : t ≠ Tile.floor) :
    SetTile w x y t = (Except.ok (), { w with tiles := updTile w.tiles y x t }) := by
  unfold SetTile
  rw [if_neg]
  intro h
  exact ht h.1

/-- A floor `SetTile` at an in-bounds coordinate succeeds and performs
the pointwise update. -/
theorem SetTile_floor_ok (w : World) (x y : Int)
    (h : oobCheck w.width w.height w.border x y = false) :
    SetTile w x y Tile.floor = (Except.ok (), { w with tiles := updTile w.tiles y x Tile.floor }) := by
  unfold SetTile
  rw [if_neg]
  intro hc
  rw [h] at hc
  exact Bool.false_ne_true hc.2

/-- A floor `SetTile` at an out-of-bounds coordinate fails and leaves
the world unchanged. -/
theorem SetTile_floor_oob (w : World) (x y : Int)
    (h : oobCheck w.width w.height w.border x y = true) :
    SetTile w x y Tile.floor = (Except.error GenErr.outOfBounds, w) := by
  unfold SetTile
  rw [if_pos ⟨rfl, h⟩]

/-- A successful `GetTile` certifies the in-bounds test. -/
theorem GetTile_ok_oob (w : World) (x y : Int) (t : Tile)
    (h : GetTile w x y = Except.ok t) :
    oobCheck w.width w.height w.border x y = false ∧ w.tiles y x = t := by
  unfold GetTile at h
  by_cases hc : oobCheck w.width w.height w.border x y
  · rw [if_pos hc] at h
    exact absurd h (by simp)
  · rw [if_neg hc] at h
    exact ⟨Bool.of_not_eq_true hc, (Except.ok.injEq _ _).mp h⟩

/-- C2: `SetTile(x, y, t)` returns `ErrOutOfBounds` exactly when `t` is
`TileFloor` and `(x, y)` fails the border test; on that error the world
is unchanged; every non-floor write at a coordinate of the buffer
succeeds and stores the tile. -/
theorem SetTile_error_spec (w : World) (x y : Int) (t : Tile) :
    ((SetTile w x y t).1 = Except.error GenErr.outOfBounds ↔
      t = Tile.floor ∧ oobCheck w.width w.height w.border x y = true) ∧
    (∀ e : GenErr, (SetTile w x y t).1 = Except.error e → (SetTile w x y t).2 = w) ∧
    (t ≠ Tile.floor → 0 ≤ x → x < w.width → 0 ≤ y → y < w.height →
      (SetTile w x y t).1 = Except.ok () ∧ (SetTile w x y t).2.tiles y x = t) := by
  by_cases h : t = Tile.floor ∧ oobCheck w.width w.height w.border x y
  · unfold SetTile
    rw [if_pos h]
    refine ⟨by simp [h], fun e _ => rfl, fun hne _ _ _ _ => absurd h.1 hne⟩
  · unfold SetTile
    rw [if_neg h]
    refine ⟨by simpa using h, fun e he => by simp at he, fun hne _ _ _ _ => ⟨rfl, ?_⟩⟩
    show updTile w.tiles y x t y x = t
    unfold updTile
    rw [if_pos ⟨rfl, rfl⟩]

/-- Witness for C2: on the default 8×8 world, a floor write at the
border corner fails, and a wall write at the border corner succeeds and
is stored. -/
theorem SetTile_error_spec_w :
    (SetTile sampleWorld 0 0 Tile.floor).1 = Except.error GenErr.outOfBounds ∧
    (SetTile sampleWorld 0 0 Tile.wall).1 = Except.ok () ∧
    (SetTile sampleWorld 0 0 Tile.wall).2.tiles 0 0 = Tile.wall := by
  refine ⟨(SetTile_error_spec sampleWorld 0 0 Tile.floor).1.mpr ⟨rfl, by decide⟩, ?_, ?_⟩
  · exact ((SetTile_error_spec sampleWorld 0 0 Tile.wall).2.2 (by decide)
      (by decide) (by decide) (by decide) (by decide)).1
  · exact ((SetTile_error_spec sampleWorld 0 0 Tile.wall).2.2 (by decide)
      (by decide) (by decide) (by decide) (by decide)).2

/-- The default world with a wall stored directly in the border margin
(as `AddWalls` may produce). -/
def marginWallWorld : World :=
  { sampleWorld with tiles := fun y x => if y = 0 ∧ x = 0 then Tile.wall else Tile.void }

/-- Counterexample to C3: a wall stored at border-margin cell `(0,0)` is
not returned by `GetTile`, which instead fails with `ErrOutOfBounds`. -/
theorem GetTile_margin_counterexample :
    marginWallWorld.tiles 0 0 = Tile.wall ∧
    GetTile marginWallWorld 0 0 = Except.error GenErr.outOfBounds := by
  exact ⟨rfl, rfl⟩

/-- C3 (amended): for every coordinate within the border margin —
inside the buffer or not — `GetTile` does not return the stored tile
but fails with `ErrOutOfBounds`; border-margin tiles are unreadable
through `GetTile`. -/
theorem GetTile_margin (w : World) (x y : Int)
    (h : oobCheck w.width w.height w.border x y = true) :
    GetTile w x y = Except.error GenErr.outOfBounds := by
  unfold GetTile
  rw [if_pos h]

/-- Witness for the amended C3 on a concrete margin cell. -/
theorem GetTile_margin_w :
    GetTile marginWallWorld 1 5 = Except.error GenErr.outOfBounds :=
  GetTile_margin marginWallWorld 1 5 (by decide)

/-- C5: a room count exceeding the lattice capacity
`(mw-2)*(mh-2)` makes `GenerateDungeonGrid` fail with
`ErrNotEnoughSpace` before any attempt, leaving the world untouched. -/
theorem GenerateDungeonGrid_capacity (w : World) (n : Int) (rnd : Nat → Nat)
    (tmr : Nat → TimerSignal) (fR fL : Nat)
    (h : n > (((w.width - w.border * 2).tdiv w.maxRoomWidth) - 2) *
      (((w.height - w.border * 2).tdiv w.maxRoomWidth) - 2)) :
    GenerateDungeonGrid w n rnd tmr fR fL = (Except.error GenErr.notEnoughSpace, w) := by
  unfold GenerateDungeonGrid
  rw [if_pos h]

/-- Witness for C5: the default 8×8 world has lattice capacity 4
(`mw = mh = 0`), so 5 rooms fail immediately. -/
theorem GenerateDungeonGrid_capacity_w :
    GenerateDungeonGrid sampleWorld 5 (fun _ => 0) (fun _ => TimerSignal.tok) 3 3 =
      (Except.error GenErr.notEnoughSpace, sampleWorld) :=
  GenerateDungeonGrid_capacity sampleWorld 5 (fun _ => 0) (fun _ => TimerSignal.tok) 3 3 (by decide)

/-- A clean `placeRoom` check phase certifies that every footprint cell
is readable and floor-free. -/
theorem prCheck_none (w : World) (x y : Int) :
    ∀ cells : List (Int × Int), prCheck w x y cells = none →
      ∀ d ∈ cells, oobCheck w.width w.height w.border (x + d.1) (y + d.2) = false ∧
        w.tiles (y + d.2) (x + d.1) ≠ Tile.floor
  | [], _, d, hd => absurd hd (List.not_mem_nil d)
  | c :: rest, h, d, hd => by
    unfold prCheck at h
    cases hg : GetTile w (x + c.1) (y + c.2) with
    | error e => rw [hg] at h; exact absurd h (by simp)
    | ok t =>
      rw [hg] at h
      cases t with
      | floor => exact absurd h (by simp)
      | void =>
        rcases List.mem_cons.mp hd with hdc | hdr
        · subst hdc
          have := GetTile_ok_oob w (x + d.1) (y + d.2) Tile.void hg
          exact ⟨this.1, by rw [this.2]; exact fun hf => Tile.noConfusion hf⟩
        · exact prCheck_none w x y rest h d hdr
      | wall =>
        rcases List.mem_cons.mp hd with hdc | hdr
        · subst hdc
          have := GetTile_ok_oob w (x + d.1) (y + d.2) Tile.wall hg
          exact ⟨this.1, by rw [this.2]; exact fun hf => Tile.noConfusion hf⟩
        · exact prCheck_none w x y rest h d hdr
      | preWall =>
        rcases List.mem_cons.mp hd with hdc | hdr
        · subst hdc
          have := GetTile_ok_oob w (x + d.1) (y + d.2) Tile.preWall hg
          exact ⟨this.1, by rw [this.2]; exact fun hf => Tile.noConfusion hf⟩
        · exact prCheck_none w x y rest h d hdr

/-- If every footprint cell passes the border test, the write phase of
`placeRoom` cannot fail. -/
theorem prPlace_ok (x y rw rh wt : Int) :
    ∀ (cells : List (Int × Int)) (w : World) (wd ht b : Int),
      w.width = wd → w.height = ht → w.border = b →
      (∀ d ∈ cells, oobCheck wd ht b (x + d.1) (y + d.2) = false) →
      (prPlace x y rw rh wt cells w).1 = Except.ok ()
  | [], w, wd, ht, b, _, _, _, _ => rfl
  | c :: rest, w, wd, ht, b, hwd, hht, hb, hall => by
    unfold prPlace
    have hrest : ∀ d ∈ rest, oobCheck wd ht b (x + d.1) (y + d.2) = false :=
      fun d hd => hall d (List.mem_cons_of_mem c hd)
    by_cases hper : c.1 < (-rw).tdiv 2 ∨ c.1 > rw.tdiv 2 - 1 ∨
        c.2 < (-rh).tdiv 2 ∨ c.2 > rh.tdiv 2 - 1
    · rw [if_pos hper]
      cases hg : GetTile w (x + c.1) (y + c.2) with
      | error e => exact prPlace_ok x y rw rh wt rest w wd ht b hwd hht hb hrest
      | ok t =>
        cases t with
        | void =>
          rw [SetTile_nonfloor w (x + c.1) (y + c.2) Tile.preWall
            (fun hf => Tile.noConfusion hf)]
          exact prPlace_ok x y rw rh wt rest _ wd ht b hwd hht hb hrest
        | wall => exact prPlace_ok x y rw rh wt rest w wd ht b hwd hht hb hrest
        | preWall => exact prPlace_ok x y rw rh wt rest w wd ht b hwd hht hb hrest
        | floor => exact prPlace_ok x y rw rh wt rest w wd ht b hwd hht hb hrest
    · rw [if_neg hper]
      have hc : oobCheck w.width w.height w.border (x + c.1) (y + c.2) = false := by
        rw [hwd, hht, hb]; exact hall c (List.mem_cons_self c rest)
      rw [SetTile_floor_ok w (x + c.1) (y + c.2) hc]
      exact prPlace_ok x y rw rh wt rest _ wd ht b hwd hht hb hrest

/-- C6: whenever `placeRoom` returns an error — a floor collision or an
out-of-bounds footprint cell — the grid is exactly what it was before
the call: the footprint scan completes before any write happens, and a
clean scan rules out every write failure. -/
theorem placeRoom_error_frame (w : World) (x y rw rh : Int) (e : GenErr)
    (h : (placeRoom w x y rw rh).1 = Except.error e) :
    (placeRoom w x y rw rh).2 = w := by
  unfold placeRoom at h ⊢
  cases hc : prCheck w x y (roomFootprint rw rh w.wallThickness) with
  | some e' => rfl
  | none =>
    rw [hc] at h
    have hall := prCheck_none w x y (roomFootprint rw rh w.wallThickness) hc
    have := prPlace_ok x y rw rh w.wallThickness
      (roomFootprint rw rh w.wallThickness) w w.width w.height w.border
      rfl rfl rfl (fun d hd => (hall d hd).1)
    rw [this] at h
    exact absurd h (by simp)

/-- Witness for C6: on the default world a room planted at the origin
fails its footprint scan (out of bounds) and leaves the world
unchanged. -/
theorem placeRoom_error_frame_w :
    (placeRoom sampleWorld 0 0 4 4).2 = sampleWorld :=
  placeRoom_error_frame sampleWorld 0 0 4 4 GenErr.outOfBounds rfl

/-- An 8×8 world exhibiting the in-place effect of `CleanWalls`: walls
at `(2,3)` and `(3,4)`, floors at `(2,2)`, `(3,2)`, `(2,4)`, `(4,3)`
(coordinates as `(x, y)`). -/
def chainWallWorld : World :=
  { sampleWorld with tiles := fun y x =>
      if y = 2 ∧ x = 2 then Tile.floor
      else if y = 2 ∧ x = 3 then Tile.floor
      else if y = 4 ∧ x = 2 then Tile.floor
      else if y = 3 ∧ x = 4 then Tile.floor
      else if y = 3 ∧ x = 2 then Tile.wall
      else if y = 4 ∧ x = 3 then Tile.wall
      else Tile.void }

set_option maxRecDepth 8192 in
/-- Counterexample to C7: with threshold 3, `CleanWalls` converts the
wall at `(3,4)` although only 2 of its 8 neighbors held floor in the
grid as it was when `CleanWalls` was called — the conversion of the
wall at `(2,3)` earlier in the same pass supplied the third floor. -/
theorem CleanWalls_calltime_counterexample :
    chainWallWorld.tiles 4 3 = Tile.wall ∧ cwCount chainWallWorld 3 4 = 2 ∧
    (CleanWalls chainWallWorld 3).tiles 4 3 = Tile.floor := by
  refine ⟨rfl, by decide, by decide⟩

/-- `isOkFloor` detects exactly the successful floor reads. -/
theorem isOkFloor_iff (r : Except GenErr Tile) :
    isOkFloor r = true ↔ r = Except.ok Tile.floor := by
  cases r with
  | error e => simp [isOkFloor]
  | ok t => cases t <;> simp [isOkFloor]

/-- A `CleanWalls` step leaves a cell unchanged unless the cell is the
scanned wall cell itself, in which case the step certifies the
threshold against the current grid. -/
theorem cwStep_cases (k : Int) (w : World) (p : Int × Int) (y' x' : Int) :
    (cwStep k w p).tiles y' x' = w.tiles y' x' ∨
      (x' = p.1 ∧ y' = p.2 ∧ w.tiles p.2 p.1 = Tile.wall ∧
        (cwStep k w p).tiles y' x' = Tile.floor ∧ k ≤ (cwCount w p.1 p.2 : Int)) := by
  unfold cwStep
  cases hg : GetTile w p.1 p.2 with
  | error e => exact Or.inl rfl
  | ok t =>
    cases t with
    | void => exact Or.inl rfl
    | preWall => exact Or.inl rfl
    | floor => exact Or.inl rfl
    | wall =>
      by_cases hk : (cwCount w p.1 p.2 : Int) ≥ k
      · rw [if_pos hk]
        have hob := GetTile_ok_oob w p.1 p.2 Tile.wall hg
        rw [SetTile_floor_ok w p.1 p.2 hob.1]
        by_cases hp : y' = p.2 ∧ x' = p.1
        · refine Or.inr ⟨hp.2, hp.1, hob.2, ?_, hk⟩
          show updTile w.tiles p.2 p.1 Tile.floor y' x' = Tile.floor
          unfold updTile
          rw [if_pos hp]
        · refine Or.inl ?_
          show updTile w.tiles p.2 p.1 Tile.floor y' x' = w.tiles y' x'
          unfold updTile
          rw [if_neg hp]
      · rw [if_neg hk]
        exact Or.inl rfl

/-- A `CleanWalls` step never destroys a floor. -/
theorem cwStep_floorMono (k : Int) (w : World) (p : Int × Int) (y x : Int)
    (h : w.tiles y x = Tile.floor) : (cwStep k w p).tiles y x = Tile.floor := by
  rcases cwStep_cases k w p y x with hl | hr
  · rw [hl]; exact h
  · exact hr.2.2.2.1

/-- A `CleanWalls` step preserves the dimensions and border. -/
theorem cwStep_frame (k : Int) (w : World) (p : Int × Int) :
    (cwStep k w p).width = w.width ∧ (cwStep k w p).height = w.height ∧
      (cwStep k w p).border = w.border := by
  unfold cwStep
  cases hg : GetTile w p.1 p.2 with
  | error e => exact ⟨rfl, rfl, rfl⟩
  | ok t =>
    cases t with
    | void => exact ⟨rfl, rfl, rfl⟩
    | preWall => exact ⟨rfl, rfl, rfl⟩
    | floor => exact ⟨rfl, rfl, rfl⟩
    | wall =>
      by_cases hk : (cwCount w p.1 p.2 : Int) ≥ k
      · rw [if_pos hk]
        exact ⟨(SetTile_frame w p.1 p.2 Tile.floor).1,
          (SetTile_frame w p.1 p.2 Tile.floor).2.1,
          (SetTile_frame w p.1 p.2 Tile.floor).2.2.1⟩
      · rw [if_neg hk]
        exact ⟨rfl, rfl, rfl⟩

/-- The `CleanWalls` pass never destroys a floor. -/
theorem cwFold_floorMono (k : Int) :
    ∀ (cells : List (Int × Int)) (w : World) (y x : Int),
      w.tiles y x = Tile.floor → (cells.foldl (cwStep k) w).tiles y x = Tile.floor
  | [], _, _, _, h => h
  | p :: rest, w, y, x, h =>
    cwFold_floorMono k rest (cwStep k w p) y x (cwStep_floorMono k w p y x h)

/-- The `CleanWalls` pass preserves the dimensions and border. -/
theorem cwFold_frame (k : Int) :
    ∀ (cells : List (Int × Int)) (w : World),
      (cells.foldl (cwStep k) w).width = w.width ∧
      (cells.foldl (cwStep k) w).height = w.height ∧
      (cells.foldl (cwStep k) w).border = w.border
  | [], _ => ⟨rfl, rfl, rfl⟩
  | p :: rest, w => by
    have h1 := cwStep_frame k w p
    have h2 := cwFold_frame k rest (cwStep k w p)
    exact ⟨h2.1.trans h1.1, h2.2.1.trans h1.2.1, h2.2.2.trans h1.2.2⟩

/-- Growing the floor set (at unchanged dimensions) can only increase
the neighbor count used by `CleanWalls`. -/
theorem cwCount_mono (w w' : World) (hw : w'.width = w.width) (hh : w'.height = w.height)
    (hb : w'.border = w.border)
    (hf : ∀ y x, w.tiles y x = Tile.floor → w'.tiles y x = Tile.floor) (x y : Int) :
    cwCount w x y ≤ cwCount w' x y := by
  unfold cwCount
  refine List.countP_mono_left ?_
  intro d _ hd
  rw [isOkFloor_iff] at hd ⊢
  have hob := GetTile_ok_oob w (x + d.1) (y + d.2) Tile.floor hd
  unfold GetTile
  rw [hw, hh, hb, hob.1]
  simp [hf _ _ hob.2]

/-- Along the `CleanWalls` pass, a wall is converted only if the
threshold is met at the moment the cell is scanned — hence also against
the final grid, since floors only accumulate. -/
theorem cwFold_conversion (k : Int) :
    ∀ (cells : List (Int × Int)) (w : World) (y x : Int),
      w.tiles y x = Tile.wall → (cells.foldl (cwStep k) w).tiles y x = Tile.floor →
      k ≤ (cwCount (cells.foldl (cwStep k) w) x y : Int)
  | [], w, y, x, hw, hf => by
    rw [List.foldl_nil] at hf
    rw [hw] at hf
    exact absurd hf (by simp)
  | p :: rest, w, y, x, hw, hf => by
    rcases cwStep_cases k w p y x with hl | hr
    · exact cwFold_conversion k rest (cwStep k w p) y x (hl.trans hw) hf
    · have h1 : cwCount w x y ≤ cwCount (cwStep k w p) x y := by
        have hfr := cwStep_frame k w p
        exact cwCount_mono w (cwStep k w p) hfr.1 hfr.2.1 hfr.2.2
          (cwStep_floorMono k w p) x y
      have h2 : cwCount (cwStep k w p) x y ≤
          cwCount (rest.foldl (cwStep k) (cwStep k w p)) x y := by
        have hfr := cwFold_frame k rest (cwStep k w p)
        exact cwCount_mono (cwStep k w p) _ hfr.1 hfr.2.1 hfr.2.2
          (cwFold_floorMono k rest (cwStep k w p)) x y
      calc k ≤ (cwCount w p.1 p.2 : Int) := hr.2.2.2.2
        _ = (cwCount w x y : Int) := by rw [hr.1, hr.2.1]
        _ ≤ (cwCount (rest.foldl (cwStep k) (cwStep k w p)) x y : Int) := by
            exact_mod_cast le_trans h1 h2

/-- C7 (amended): `CleanWalls(k)` converts a wall at `(x, y)` to floor
only if at least `k` of its 8 neighbors hold floor at the moment the
cell is scanned — counted against the evolving grid, so the threshold
also holds in the resulting grid (floors only accumulate during the
pass), but not necessarily in the grid as it was when `CleanWalls` was
called. -/
theorem CleanWalls_conversion_threshold (w : World) (k x y : Int)
    (hw : w.tiles y x = Tile.wall) (hf : (CleanWalls w k).tiles y x = Tile.floor) :
    k ≤ (cwCount (CleanWalls w k) x y : Int) := by
  unfold CleanWalls at hf ⊢
  exact cwFold_conversion k (rowMajor w.width w.height) w y x hw hf

set_option maxRecDepth 8192 in
/-- Witness for the amended C7: the converted wall at `(3,4)` of the
chain world has 3 floor neighbors in the resulting grid. -/
theorem CleanWalls_conversion_threshold_w :
    (3 : Int) ≤ (cwCount (CleanWalls chainWallWorld 3) 3 4 : Int) :=
  CleanWalls_conversion_threshold chainWallWorld 3 3 4 rfl (by decide)

/-- With a positive border, the whole column `x = 0` fails the bounds
test. -/
theorem oobCheck_col0 (wd ht b u : Int) (hb : 1 ≤ b) : oobCheck wd ht b 0 u = true := by
  simp only [oobCheck, Bool.or_eq_true, decide_eq_true_eq]
  omega

/-- The world produced by the wall write `SetTile(0, cy, TileWall)`
holds a wall at `(0, cy)`. -/
theorem SetTile_wall_col0 (w : World) (cy : Int) :
    (SetTile w 0 cy Tile.wall).2.tiles cy 0 = Tile.wall := by
  rw [SetTile_nonfloor w 0 cy Tile.wall (fun hf => Tile.noConfusion hf)]
  show updTile w.tiles cy 0 Tile.wall cy 0 = Tile.wall
  unfold updTile
  rw [if_pos ⟨rfl, rfl⟩]

/-- Every successful `rwGen` exit point lies after the midline wall
write of its final attempt, so the returned grid holds a wall somewhere
in column 0. -/
theorem rwGen_wall_column (n : Int) (rnd : Nat → Nat) (tmr : Nat → TimerSignal) (fuelL : Nat) :
    ∀ (fuelR : Nat) (w : World) (rk tk : Nat),
      (rwGen n rnd tmr fuelL fuelR w rk tk).1 = Except.ok () →
      ∃ u : Int, (rwGen n rnd tmr fuelL fuelR w rk tk).2.tiles u 0 = Tile.wall
  | 0, w, rk, tk, h => absurd h (by simp [rwGen])
  | fuelR + 1, w, rk, tk, h => by
    simp only [rwGen] at h ⊢
    cases hL : rwLoop w.width w.height (ClearTiles w w.width w.height).corridorSize n fuelL
        (ClearTiles w w.width w.height)
        (w.width.tdiv 2) (w.height.tdiv 2) w.width 0 w.height 0 0 rnd tmr rk tk with
    | noFuel w' => rw [hL] at h; simp at h
    | fail w' => rw [hL] at h; simp at h
    | retryRq w' rk' tk' =>
      rw [hL] at h
      exact rwGen_wall_column n rnd tmr fuelL fuelR w' rk' tk' h
    | done w' minX maxX minY maxY rk' tk' =>
      rw [hL] at h
      dsimp only at h ⊢
      by_cases hbd : maxX - minX < w.width.tdiv 2 ∧ maxY - minY < w.height.tdiv 2
      · rw [if_pos hbd] at h ⊢
        exact rwGen_wall_column n rnd tmr fuelL fuelR w' rk' tk' h
      · rw [if_neg hbd] at h ⊢
        by_cases hcv : ¬(convScan (SetTile w' 0 (minY + (maxY - minY).tdiv 2) Tile.wall).2
            (minY + (maxY - minY).tdiv 2)
            (intRange minX maxX) false false = true ∨ false = true)
        · rw [if_pos hcv] at h ⊢
          exact rwGen_wall_column n rnd tmr fuelL fuelR _ rk' tk' h
        · rw [if_neg hcv] at h ⊢
          exact ⟨minY + (maxY - minY).tdiv 2, SetTile_wall_col0 w' _⟩

/-- C10: a successful `GenerateRandomWalk` always performs the
`SetTile(0, cy, TileWall)` write just before its midline convexity
scan, and nothing after that write touches column 0 — so the returned
grid contains a wall cell in column 0, a cell inside the border margin
(whenever the border is positive) that the carving itself never wrote. -/
theorem GenerateRandomWalk_wall_column (w : World) (n : Int) (rnd : Nat → Nat)
    (tmr : Nat → TimerSignal) (fR fL : Nat)
    (h : (GenerateRandomWalk w n rnd tmr fR fL).1 = Except.ok ()) :
    ∃ u : Int, (GenerateRandomWalk w n rnd tmr fR fL).2.tiles u 0 = Tile.wall ∧
      (1 ≤ (GenerateRandomWalk w n rnd tmr fR fL).2.border →
        GetTile (GenerateRandomWalk w n rnd tmr fR fL).2 0 u =
          Except.error GenErr.outOfBounds) := by
  obtain ⟨u, hu⟩ := rwGen_wall_column n rnd tmr fL fR w 0 0 h
  refine ⟨u, hu, fun hb => ?_⟩
  unfold GetTile
  rw [oobCheck_col0 _ _ _ u hb]
  rfl

/-- A borderless 8×8 world on which a short random walk can be driven
deterministically. -/
def rwWorld : World := { sampleWorld with border := 0 }

/-- A hand-crafted direction stream (left ×2, down ×3, right ×5, up ×3)
that carves a U shape: its midline row has two floor groups separated
by a void gap, so the convexity scan accepts. -/
def rwStream : Nat → Nat := fun k => [0, 0, 3, 3, 3, 1, 1, 1, 1, 1, 2, 2, 2].getD k 0

/-- A timer oracle that never fires a timeout. -/
def rwTimer : Nat → TimerSignal := fun _ => TimerSignal.tok

/-- Witness for C10: the deterministic U-shaped walk succeeds, and its
returned grid indeed holds a wall in column 0. -/
theorem GenerateRandomWalk_wall_column_w :
    ∃ u : Int, (GenerateRandomWalk rwWorld 28 rwStream rwTimer 1 20).2.tiles u 0 = Tile.wall ∧
      (1 ≤ (GenerateRandomWalk rwWorld 28 rwStream rwTimer 1 20).2.border →
        GetTile (GenerateRandomWalk rwWorld 28 rwStream rwTimer 1 20).2 0 u =
          Except.error GenErr.outOfBounds) :=
  GenerateRandomWalk_wall_column rwWorld 28 rwStream rwTimer 1 20 rfl

/-- A property preserved by every step of a fold is preserved by the
fold. -/
theorem foldl_pres {β α : Type} (P : β → Prop) (f : β → α → β)
    (hstep : ∀ b a, P b → P (f b a)) :
    ∀ (l : List α) (b : β), P b → P (l.foldl f b)
  | [], _, hb => hb
  | a :: rest, b, hb => foldl_pres P f hstep rest (f b a) (hstep b a hb)

/-- `SetTile` preserves the border invariant: a floor write lands only
inside the playable area, every other write stores a non-floor tile. -/
theorem floorInv_SetTile (w : World) (x y : Int) (t : Tile) (h : floorInv w) :
    floorInv (SetTile w x y t).2 := by
  by_cases hc : t = Tile.floor ∧ oobCheck w.width w.height w.border x y
  · unfold SetTile
    rw [if_pos hc]
    exact h
  · unfold SetTile
    rw [if_neg hc]
    intro x' y' hob
    show updTile w.tiles y x t y' x' ≠ Tile.floor
    unfold updTile
    by_cases hp : y' = y ∧ x' = x
    · rw [if_pos hp]
      intro hflr
      subst hflr
      exact hc ⟨rfl, by rw [← hp.1, ← hp.2]; exact hob⟩
    · rw [if_neg hp]
      exact h x' y' hob

/-- A cleared world satisfies the border invariant. -/
theorem floorInv_ClearTiles (w : World) (a b : Int) : floorInv (ClearTiles w a b) :=
  fun _ _ _ hf => Tile.noConfusion hf

/-- The floor set never grows during `AddWalls`-style passes: every
floor of the current world was a floor of the reference buffer, at
unchanged dimensions (the working border is 0 inside `AddWalls`). -/
def FloorsBelow (ref : Int → Int → Tile) (wd ht b : Int) (w : World) : Prop :=
  w.width = wd ∧ w.height = ht ∧ w.border = b ∧
    ∀ y x, w.tiles y x = Tile.floor → ref y x = Tile.floor

/-- Non-floor writes preserve `FloorsBelow`. -/
theorem FloorsBelow_SetTile (ref : Int → Int → Tile) (wd ht b : Int) (w : World)
    (x y : Int) (t : Tile) (hnf : t ≠ Tile.floor) (h : FloorsBelow ref wd ht b w) :
    FloorsBelow ref wd ht b (SetTile w x y t).2 := by
  rw [SetTile_nonfloor w x y t hnf]
  refine ⟨h.1, h.2.1, h.2.2.1, ?_⟩
  intro y' x' hf
  unfold updTile at hf
  dsimp only at hf
  by_cases hp : y' = y ∧ x' = x
  · rw [if_pos hp] at hf
    exact absurd hf hnf
  · rw [if_neg hp] at hf
    exact h.2.2.2 y' x' hf

/-- The neighborhood pass of `AddWalls` writes only walls. -/
theorem FloorsBelow_awNbhd (ref : Int → Int → Tile) (wd ht b : Int) (t x y : Int)
    (w : World) (h : FloorsBelow ref wd ht b w) :
    FloorsBelow ref wd ht b (awNbhd t x y w) := by
  unfold awNbhd
  refine foldl_pres (FloorsBelow ref wd ht b) _ ?_ _ w h
  intro w1 dx h1
  refine foldl_pres (FloorsBelow ref wd ht b) _ ?_ _ w1 h1
  intro w2 dy h2
  cases hg : GetTile w2 (x + dx) (y + dy) with
  | error e => exact h2
  | ok tl =>
    cases tl with
    | void =>
      dsimp only
      exact FloorsBelow_SetTile ref wd ht b w2 (x + dx) (y + dy) Tile.wall
        (fun hf => Tile.noConfusion hf) h2
    | wall => exact h2
    | preWall => exact h2
    | floor => exact h2

/-- Each `AddWalls` scan cell writes only walls. -/
theorem FloorsBelow_awCell (ref : Int → Int → Tile) (wd ht b : Int) (t : Int)
    (w : World) (p : Int × Int) (h : FloorsBelow ref wd ht b w) :
    FloorsBelow ref wd ht b (awCell t w p) := by
  unfold awCell
  cases hg : GetTile w p.1 p.2 with
  | error e => exact h
  | ok tl =>
    cases tl with
    | void => exact h
    | wall => exact h
    | preWall =>
      dsimp only
      exact FloorsBelow_SetTile ref wd ht b w p.1 p.2 Tile.wall
        (fun hf => Tile.noConfusion hf) h
    | floor =>
      dsimp only
      exact FloorsBelow_awNbhd ref wd ht b t p.1 p.2 w h

/-- `AddWalls` adds no floor, keeps the dimensions, and restores the
border. -/
theorem AddWalls_floors (w : World) :
    (AddWalls w).width = w.width ∧ (AddWalls w).height = w.height ∧
    (AddWalls w).border = w.border ∧
    ∀ y x, (AddWalls w).tiles y x = Tile.floor → w.tiles y x = Tile.floor := by
  unfold AddWalls
  dsimp only
  have h := foldl_pres (FloorsBelow w.tiles w.width w.height 0)
    (fun wacc p => awCell w.wallThickness wacc p)
    (fun wacc p hp => FloorsBelow_awCell w.tiles w.width w.height 0 w.wallThickness wacc p hp)
    (rowMajor w.width w.height) { w with border := 0 }
    ⟨rfl, rfl, rfl, fun _ _ hf => hf⟩
  exact ⟨h.1, h.2.1, rfl, h.2.2.2⟩

/-- `AddWalls` preserves the border invariant. -/
theorem floorInv_AddWalls (w : World) (h : floorInv w) : floorInv (AddWalls w) := by
  intro x y hob
  have hfr := AddWalls_floors w
  rw [hfr.1, hfr.2.1, hfr.2.2.1] at hob
  intro hf
  exact h x y hob (hfr.2.2.2 y x hf)

/-- A `CleanWalls` step preserves the border invariant. -/
theorem floorInv_cwStep (k : Int) (w : World) (p : Int × Int) (h : floorInv w) :
    floorInv (cwStep k w p) := by
  unfold cwStep
  cases hg : GetTile w p.1 p.2 with
  | error e => exact h
  | ok tl =>
    cases tl with
    | void => exact h
    | preWall => exact h
    | floor => exact h
    | wall =>
      dsimp only
      by_cases hk : (cwCount w p.1 p.2 : Int) ≥ k
      · rw [if_pos hk]
        exact floorInv_SetTile w p.1 p.2 Tile.floor h
      · rw [if_neg hk]
        exact h

/-- `CleanWalls` preserves the border invariant. -/
theorem floorInv_CleanWalls (w : World) (k : Int) (h : floorInv w) :
    floorInv (CleanWalls w k) :=
  foldl_pres floorInv (cwStep k) (fun w' p hp => floorInv_cwStep k w' p hp)
    (rowMajor w.width w.height) w h

/-- The carving block of the random walk preserves the border
invariant. -/
theorem floorInv_rwBlock :
    ∀ (cells : List (Int × Int)) (w : World) (tc : Int), floorInv w →
      floorInv (rwBlock cells w tc).1
  | [], _, _, h => h
  | c :: rest, w, tc, h => by
    unfold rwBlock
    cases hg : GetTile w c.1 c.2 with
    | ok t =>
      dsimp only
      by_cases hv : t ≠ Tile.void
      · rw [if_pos hv]
        exact floorInv_rwBlock rest w (tc + 1 - 1) h
      · rw [if_neg hv]
        rcases hs : SetTile w c.1 c.2 Tile.floor with ⟨r, w'⟩
        have hw' : floorInv w' := by
          have hfi := floorInv_SetTile w c.1 c.2 Tile.floor h
          rw [hs] at hfi
          exact hfi
        cases r with
        | error e => exact hw'
        | ok u => exact floorInv_rwBlock rest w' (tc + 1) hw'
    | error e =>
      dsimp only
      rcases hs : SetTile w c.1 c.2 Tile.floor with ⟨r, w'⟩
      have hw' : floorInv w' := by
        have hfi := floorInv_SetTile w c.1 c.2 Tile.floor h
        rw [hs] at hfi
        exact hfi
      cases r with
      | error e' => exact hw'
      | ok u => exact floorInv_rwBlock rest w' (tc + 1) hw'

/-- The world carried by a random-walk loop outcome. -/
def rwOutWorld : RWLoopOut → World
  | RWLoopOut.done w _ _ _ _ _ _ => w
  | RWLoopOut.fail w => w
  | RWLoopOut.retryRq w _ _ => w
  | RWLoopOut.noFuel w => w

/-- The random-walk carving loop preserves the border invariant. -/
theorem floorInv_rwLoop (wd ht cs N : Int) (rnd : Nat → Nat) (tmr : Nat → TimerSignal) :
    ∀ (fuel : Nat) (w : World) (x y minX maxX minY maxY tc : Int) (rk tk : Nat),
      floorInv w →
      floorInv (rwOutWorld (rwLoop wd ht cs N fuel w x y minX maxX minY maxY tc rnd tmr rk tk))
  | 0, w, _, _, _, _, _, _, _, _, _, h => h
  | fuel + 1, w, x, y, minX, maxX, minY, maxY, tc, rk, tk, h => by
    unfold rwLoop
    by_cases htc : tc < N
    · rw [if_pos htc]
      cases tmr tk with
      | terr => exact h
      | tretry => exact h
      | tok =>
        dsimp only
        rcases hb : rwBlock (rwBlockCells (if rnd rk % 4 = 0 then x - 1 else
            if rnd rk % 4 = 1 then x + 1 else x)
            (if rnd rk % 4 = 2 then y - 1 else if rnd rk % 4 = 3 then y + 1 else y) cs) w tc
          with ⟨w', tc', aborted⟩
        have hw' : floorInv w' := by
          have hfi := floorInv_rwBlock (rwBlockCells (if rnd rk % 4 = 0 then x - 1 else
            if rnd rk % 4 = 1 then x + 1 else x)
            (if rnd rk % 4 = 2 then y - 1 else if rnd rk % 4 = 3 then y + 1 else y) cs) w tc h
          rw [hb] at hfi
          exact hfi
        cases aborted with
        | true =>
          dsimp only
          exact floorInv_rwLoop wd ht cs N rnd tmr fuel w' _ _ _ _ _ _ _ _ _ hw'
        | false =>
          dsimp only
          exact floorInv_rwLoop wd ht cs N rnd tmr fuel w' _ _ _ _ _ _ _ _ _ hw'
    · rw [if_neg htc]
      exact h

/-- Every world returned by `rwGen` satisfies the border invariant
(given that the input does, for the zero-fuel case). -/
theorem floorInv_rwGen (N : Int) (rnd : Nat → Nat) (tmr : Nat → TimerSignal) (fuelL : Nat) :
    ∀ (fuelR : Nat) (w : World) (rk tk : Nat), floorInv w →
      floorInv (rwGen N rnd tmr fuelL fuelR w rk tk).2
  | 0, w, _, _, h => h
  | fuelR + 1, w, rk, tk, h => by
    simp only [rwGen]
    cases hL : rwLoop w.width w.height (ClearTiles w w.width w.height).corridorSize N fuelL
        (ClearTiles w w.width w.height)
        (w.width.tdiv 2) (w.height.tdiv 2) w.width 0 w.height 0 0 rnd tmr rk tk with
    | noFuel w' =>
      have hfi := floorInv_rwLoop w.width w.height (ClearTiles w w.width w.height).corridorSize
        N rnd tmr fuelL (ClearTiles w w.width w.height) (w.width.tdiv 2) (w.height.tdiv 2)
        w.width 0 w.height 0 0 rk tk (floorInv_ClearTiles w w.width w.height)
      rw [hL] at hfi
      exact hfi
    | fail w' =>
      have hfi := floorInv_rwLoop w.width w.height (ClearTiles w w.width w.height).corridorSize
        N rnd tmr fuelL (ClearTiles w w.width w.height) (w.width.tdiv 2) (w.height.tdiv 2)
        w.width 0 w.height 0 0 rk tk (floorInv_ClearTiles w w.width w.height)
      rw [hL] at hfi
      exact hfi
    | retryRq w' rk' tk' =>
      have hfi := floorInv_rwLoop w.width w.height (ClearTiles w w.width w.height).corridorSize
        N rnd tmr fuelL (ClearTiles w w.width w.height) (w.width.tdiv 2) (w.height.tdiv 2)
        w.width 0 w.height 0 0 rk tk (floorInv_ClearTiles w w.width w.height)
      rw [hL] at hfi
      exact floorInv_rwGen N rnd tmr fuelL fuelR w' rk' tk' hfi
    | done w' minX maxX minY maxY rk' tk' =>
      have hfi : floorInv w' := by
        have hx := floorInv_rwLoop w.width w.height (ClearTiles w w.width w.height).corridorSize
          N rnd tmr fuelL (ClearTiles w w.width w.height) (w.width.tdiv 2) (w.height.tdiv 2)
          w.width 0 w.height 0 0 rk tk (floorInv_ClearTiles w w.width w.height)
        rw [hL] at hx
        exact hx
      dsimp only
      by_cases hbd : maxX - minX < w.width.tdiv 2 ∧ maxY - minY < w.height.tdiv 2
      · rw [if_pos hbd]
        exact floorInv_rwGen N rnd tmr fuelL fuelR w' rk' tk' hfi
      · rw [if_neg hbd]
        have hfi2 : floorInv (SetTile w' 0 (minY + (maxY - minY).tdiv 2) Tile.wall).2 :=
          floorInv_SetTile w' 0 _ Tile.wall hfi
        by_cases hcv : ¬(convScan (SetTile w' 0 (minY + (maxY - minY).tdiv 2) Tile.wall).2
            (minY + (maxY - minY).tdiv 2) (intRange minX maxX) false false = true ∨
            false = true)
        · rw [if_pos hcv]
          exact floorInv_rwGen N rnd tmr fuelL fuelR _ rk' tk' hfi2
        · rw [if_neg hcv]
          exact hfi2

/-- The room fill of the grid materialization preserves the border
invariant. -/
theorem floorInv_gridRoomFill (s mrw wt : Int) (w : World) (sx sy : Int)
    (h : floorInv w) : floorInv (gridRoomFill s mrw wt w sx sy) := by
  unfold gridRoomFill
  refine foldl_pres floorInv _ ?_ _ w h
  intro w1 dx h1
  refine foldl_pres floorInv _ ?_ _ w1 h1
  intro w2 dy h2
  exact floorInv_SetTile w2 _ _ Tile.floor h2

/-- The corridor writes of the grid materialization preserve the border
invariant. -/
theorem floorInv_gridCorridor (s cs wt : Int) (offsetOn : Bool) (rnd : Nat → Nat)
    (w : World) (prev cur : Coord) (rk : Nat) (h : floorInv w) :
    floorInv (gridCorridor s cs wt offsetOn rnd w prev cur rk).1 := by
  unfold gridCorridor
  dsimp only
  refine foldl_pres floorInv _ ?_ _ w h
  intro w1 x h1
  refine foldl_pres floorInv _ ?_ _ w1 h1
  intro w2 y h2
  exact floorInv_SetTile w2 _ _ Tile.floor h2

/-- Run materialization preserves the border invariant. -/
theorem floorInv_gridRunMat (s cs wt : Int) (offsetOn : Bool) (rnd : Nat → Nat) :
    ∀ (run : List Coord) (prevC : Option Coord) (w : World) (rk : Nat), floorInv w →
      floorInv (gridRunMat s cs wt offsetOn rnd run prevC w rk).1
  | [], _, _, _, h => h
  | cur :: rest, prevC, w, rk, h => by
    unfold gridRunMat
    have h1 := floorInv_gridRoomFill s w.maxRoomWidth wt w cur.x cur.y h
    cases prevC with
    | none => exact floorInv_gridRunMat s cs wt offsetOn rnd rest (some cur) _ rk h1
    | some prev =>
      dsimp only
      rcases hc : gridCorridor s cs wt offsetOn rnd
          (gridRoomFill s w.maxRoomWidth wt w cur.x cur.y) prev cur rk with ⟨w2, rk'⟩
      have h2 : floorInv w2 := by
        have hfi := floorInv_gridCorridor s cs wt offsetOn rnd
          (gridRoomFill s w.maxRoomWidth wt w cur.x cur.y) prev cur rk h1
        rw [hc] at hfi
        exact hfi
      exact floorInv_gridRunMat s cs wt offsetOn rnd rest (some cur) w2 rk' h2

/-- The whole grid materialization preserves the border invariant. -/
theorem floorInv_gridMaterialize (s cs wt : Int) (offsetOn : Bool) (rnd : Nat → Nat)
    (runs : List (List Coord)) (w : World) (rk : Nat) (h : floorInv w) :
    floorInv (gridMaterialize s cs wt offsetOn rnd runs w rk).1 := by
  unfold gridMaterialize
  have := foldl_pres (fun acc : World × Nat => floorInv acc.1)
    (fun acc run => gridRunMat s cs wt offsetOn rnd run none acc.1 acc.2)
    (fun acc run hacc => floorInv_gridRunMat s cs wt offsetOn rnd run none acc.1 acc.2 hacc)
    runs (w, rk) h
  exact this

/-- Every world returned by `gridAttempt` satisfies the border
invariant (given that the input does, for the zero-fuel case). -/
theorem floorInv_gridAttempt (roomCount mw mh s : Int) (rnd : Nat → Nat)
    (tmr : Nat → TimerSignal) (fuelL : Nat) :
    ∀ (fuelR : Nat) (w : World) (rk tk : Nat), floorInv w →
      floorInv (gridAttempt roomCount mw mh s rnd tmr fuelL fuelR w rk tk).2
  | 0, w, _, _, h => h
  | fuelR + 1, w, rk, tk, h => by
    simp only [gridAttempt]
    cases hL : gridLoop mw mh rnd tmr fuelL roomCount (mw.tdiv 2) (mh.tdiv 2)
        (fun _ _ => false) [[]] rk tk with
    | noFuel => exact floorInv_ClearTiles w w.width w.height
    | fail e => exact floorInv_ClearTiles w w.width w.height
    | retryRq rk' tk' =>
      exact floorInv_gridAttempt roomCount mw mh s rnd tmr fuelL fuelR _ rk' tk'
        (floorInv_ClearTiles w w.width w.height)
    | done rooms runs rk' tk' =>
      dsimp only
      rcases hm : gridMaterialize s (ClearTiles w w.width w.height).corridorSize
          (ClearTiles w w.width w.height).wallThickness
          (ClearTiles w w.width w.height).allowRandomCorridorOffset rnd runs
          (ClearTiles w w.width w.height) rk' with ⟨w2, rk2⟩
      have h2 : floorInv w2 := by
        have hfi := floorInv_gridMaterialize s (ClearTiles w w.width w.height).corridorSize
          (ClearTiles w w.width w.height).wallThickness
          (ClearTiles w w.width w.height).allowRandomCorridorOffset rnd runs
          (ClearTiles w w.width w.height) rk' (floorInv_ClearTiles w w.width w.height)
        rw [hm] at hfi
        exact hfi
      exact h2

/-- `GenerateDungeonGrid` preserves the border invariant. -/
theorem floorInv_GenerateDungeonGrid (w : World) (n : Int) (rnd : Nat → Nat)
    (tmr : Nat → TimerSignal) (fR fL : Nat) (h : floorInv w) :
    floorInv (GenerateDungeonGrid w n rnd tmr fR fL).2 := by
  unfold GenerateDungeonGrid
  by_cases hcap : n > (((w.width - w.border * 2).tdiv w.maxRoomWidth) - 2) *
      (((w.height - w.border * 2).tdiv w.maxRoomWidth) - 2)
  · rw [if_pos hcap]
    exact h
  · rw [if_neg hcap]
    rcases ha : gridAttempt n ((w.width - w.border * 2).tdiv w.maxRoomWidth)
        ((w.height - w.border * 2).tdiv w.maxRoomWidth) w.maxRoomWidth rnd tmr fL fR w 0 0
      with ⟨r, w'⟩
    have h' : floorInv w' := by
      have hfi := floorInv_gridAttempt n ((w.width - w.border * 2).tdiv w.maxRoomWidth)
        ((w.height - w.border * 2).tdiv w.maxRoomWidth) w.maxRoomWidth rnd tmr fL fR w 0 0 h
      rw [ha] at hfi
      exact hfi
    cases r with
    | ok rooms => exact h'
    | error e => exact h'

/-- The write phase of `placeRoom` preserves the border invariant. -/
theorem floorInv_prPlace (x y rw rh wt : Int) :
    ∀ (cells : List (Int × Int)) (w : World), floorInv w →
      floorInv (prPlace x y rw rh wt cells w).2
  | [], _, h => h
  | c :: rest, w, h => by
    unfold prPlace
    by_cases hper : c.1 < (-rw).tdiv 2 ∨ c.1 > rw.tdiv 2 - 1 ∨
        c.2 < (-rh).tdiv 2 ∨ c.2 > rh.tdiv 2 - 1
    · rw [if_pos hper]
      cases hg : GetTile w (x + c.1) (y + c.2) with
      | error e => exact floorInv_prPlace x y rw rh wt rest w h
      | ok t =>
        cases t with
        | wall => exact floorInv_prPlace x y rw rh wt rest w h
        | preWall => exact floorInv_prPlace x y rw rh wt rest w h
        | floor => exact floorInv_prPlace x y rw rh wt rest w h
        | void =>
          dsimp only
          rcases hs : SetTile w (x + c.1) (y + c.2) Tile.preWall with ⟨r, w'⟩
          have hw' : floorInv w' := by
            have hfi := floorInv_SetTile w (x + c.1) (y + c.2) Tile.preWall h
            rw [hs] at hfi
            exact hfi
          cases r with
          | error e => exact hw'
          | ok u => exact floorInv_prPlace x y rw rh wt rest w' hw'
    · rw [if_neg hper]
      rcases hs : SetTile w (x + c.1) (y + c.2) Tile.floor with ⟨r, w'⟩
      have hw' : floorInv w' := by
        have hfi := floorInv_SetTile w (x + c.1) (y + c.2) Tile.floor h
        rw [hs] at hfi
        exact hfi
      cases r with
      | error e => exact hw'
      | ok u => exact floorInv_prPlace x y rw rh wt rest w' hw'

/-- `placeRoom` preserves the border invariant. -/
theorem floorInv_placeRoom (w : World) (x y rw rh : Int) (h : floorInv w) :
    floorInv (placeRoom w x y rw rh).2 := by
  unfold placeRoom
  cases hc : prCheck w x y (roomFootprint rw rh w.wallThickness) with
  | some e => exact h
  | none => exact floorInv_prPlace x y rw rh w.wallThickness _ w h

/-- The corridor carving of `GenerateDungeon` preserves the border
invariant. -/
theorem floorInv_dgCorridor (w : World) (cx cy cw ch : Int) (h : floorInv w) :
    floorInv (dgCorridor w cx cy cw ch) := by
  unfold dgCorridor
  refine foldl_pres floorInv _ ?_ _ w h
  intro w1 x h1
  refine foldl_pres floorInv _ ?_ _ w1 h1
  intro w2 y h2
  cases hg : GetTile w2 x y with
  | error e => exact h2
  | ok t =>
    dsimp only
    by_cases hf : t ≠ Tile.floor
    · rw [if_pos hf]
      exact floorInv_SetTile w2 x y Tile.floor h2
    · rw [if_neg hf]
      exact h2

/-- The world carried by a freeform placement loop outcome. -/
def dgOutWorld : DgLoopOut → World
  | DgLoopOut.done w _ _ => w
  | DgLoopOut.fail _ w => w
  | DgLoopOut.retryRq w _ _ => w
  | DgLoopOut.noFuel w => w

/-- A `placeRoom` call destructured as a pair preserves the border
invariant on its world component. -/
theorem floorInv_placeRoom_pair (w : World) (a b c d : Int) (r : Except GenErr Unit)
    (w' : World) (heq : placeRoom w a b c d = (r, w')) (h : floorInv w) : floorInv w' := by
  have hfi := floorInv_placeRoom w a b c d h
  rw [heq] at hfi
  exact hfi

/-- The freeform placement loop preserves the border invariant. -/
theorem floorInv_dgLoop (cs wt minW maxW minH maxH : Int) (offsetOn : Bool)
    (rnd : Nat → Nat) (tmr : Nat → TimerSignal) :
    ∀ (fuel : Nat) (w : World) (rc sx sy rw rh : Int) (prevRooms : List Coord) (rk tk : Nat),
      floorInv w →
      floorInv (dgOutWorld
        (dgLoop cs wt minW maxW minH maxH offsetOn rnd tmr fuel w rc sx sy rw rh prevRooms rk tk))
  | 0, w, _, _, _, _, _, _, _, _, h => h
  | fuel + 1, w, rc, sx, sy, rw, rh, prevRooms, rk, tk, h => by
    unfold dgLoop
    by_cases hrc : rc > 0
    · rw [if_pos hrc]
      cases tmr tk with
      | terr => exact h
      | tretry => exact h
      | tok =>
        dsimp only
        split
        · rename_i e w' heq
          exact floorInv_dgLoop cs wt minW maxW minH maxH offsetOn rnd tmr fuel w' _ _ _ _ _ _ _ _
            (floorInv_placeRoom_pair w _ _ _ _ _ _ heq h)
        · rename_i u w' heq
          exact floorInv_dgLoop cs wt minW maxW minH maxH offsetOn rnd tmr fuel _ _ _ _ _ _ _ _ _
            (floorInv_dgCorridor w' _ _ _ _ (floorInv_placeRoom_pair w _ _ _ _ _ _ heq h))
    · rw [if_neg hrc]
      exact h

/-- Every world returned by `dgAttempt` satisfies the border invariant
(given that the input does, for the zero-fuel case). -/
theorem floorInv_dgAttempt (roomCount : Int) (rnd : Nat → Nat) (tmr : Nat → TimerSignal)
    (fuelL : Nat) :
    ∀ (fuelR : Nat) (w : World) (rk tk : Nat), floorInv w →
      floorInv (dgAttempt roomCount rnd tmr fuelL fuelR w rk tk).2
  | 0, w, _, _, h => h
  | fuelR + 1, w, rk, tk, h => by
    simp only [dgAttempt]
    have h2 : floorInv (placeRoom (ClearTiles w w.width w.height) (w.width.tdiv 2)
        (w.height.tdiv 2) (randInt (rnd rk) w.minRoomWidth w.maxRoomWidth)
        (randInt (rnd (rk + 1)) w.minRoomHeight w.maxRoomHeight)).2 :=
      floorInv_placeRoom _ _ _ _ _ (floorInv_ClearTiles w w.width w.height)
    have h3 := floorInv_dgLoop w.corridorSize w.wallThickness w.minRoomWidth w.maxRoomWidth
      w.minRoomHeight w.maxRoomHeight w.allowRandomCorridorOffset rnd tmr fuelL
      (placeRoom (ClearTiles w w.width w.height) (w.width.tdiv 2)
        (w.height.tdiv 2) (randInt (rnd rk) w.minRoomWidth w.maxRoomWidth)
        (randInt (rnd (rk + 1)) w.minRoomHeight w.maxRoomHeight)).2
      (roomCount - 1) (w.width.tdiv 2) (w.height.tdiv 2)
      (randInt (rnd rk) w.minRoomWidth w.maxRoomWidth)
      (randInt (rnd (rk + 1)) w.minRoomHeight w.maxRoomHeight)
      [Coord.mk 0 0 0 0] (rk + 2) tk h2
    cases hL : dgLoop w.corridorSize w.wallThickness w.minRoomWidth w.maxRoomWidth
        w.minRoomHeight w.maxRoomHeight w.allowRandomCorridorOffset rnd tmr fuelL
        (placeRoom (ClearTiles w w.width w.height) (w.width.tdiv 2)
          (w.height.tdiv 2) (randInt (rnd rk) w.minRoomWidth w.maxRoomWidth)
          (randInt (rnd (rk + 1)) w.minRoomHeight w.maxRoomHeight)).2
        (roomCount - 1) (w.width.tdiv 2) (w.height.tdiv 2)
        (randInt (rnd rk) w.minRoomWidth w.maxRoomWidth)
        (randInt (rnd (rk + 1)) w.minRoomHeight w.maxRoomHeight)
        [Coord.mk 0 0 0 0] (rk + 2) tk with
    | noFuel w' => rw [hL] at h3; exact h3
    | fail e w' => rw [hL] at h3; exact h3
    | retryRq w' rk' tk' =>
      rw [hL] at h3
      exact floorInv_dgAttempt roomCount rnd tmr fuelL fuelR w' rk' tk' h3
    | done w' rk' tk' => rw [hL] at h3; exact h3

/-- `GenerateDungeon` preserves the border invariant. -/
theorem floorInv_GenerateDungeon (w : World) (n : Int) (rnd : Nat → Nat)
    (tmr : Nat → TimerSignal) (fR fL : Nat) (h : floorInv w) :
    floorInv (GenerateDungeon w n rnd tmr fR fL).2 := by
  unfold GenerateDungeon
  by_cases hcap : n > (((w.width - w.border * 2).tdiv w.maxRoomWidth) - 2) *
      (((w.height - w.border * 2).tdiv w.maxRoomWidth) - 2)
  · rw [if_pos hcap]
    exact h
  · rw [if_neg hcap]
    exact floorInv_dgAttempt n rnd tmr fL fR w 0 0 h

/-- `GenerateRandomWalk` preserves the border invariant. -/
theorem floorInv_GenerateRandomWalk (w : World) (n : Int) (rnd : Nat → Nat)
    (tmr : Nat → TimerSignal) (fR fL : Nat) (h : floorInv w) :
    floorInv (GenerateRandomWalk w n rnd tmr fR fL).2 :=
  floorInv_rwGen n rnd tmr fL fR w 0 0 h

/-- Each public operation preserves the border invariant. -/
theorem floorInv_applyOp (w : World) (op : WorldOp) (h : floorInv w) :
    floorInv (applyOp w op) := by
  cases op with
  | opSetTile x y t => exact floorInv_SetTile w x y t h
  | opGetTile x y => exact h
  | opAddWalls => exact floorInv_AddWalls w h
  | opCleanWalls k => exact floorInv_CleanWalls w k h
  | opGenerateRandomWalk n rnd tmr fR fL => exact floorInv_GenerateRandomWalk w n rnd tmr fR fL h
  | opGenerateDungeonGrid n rnd tmr fR fL => exact floorInv_GenerateDungeonGrid w n rnd tmr fR fL h
  | opGenerateDungeon n rnd tmr fR fL => exact floorInv_GenerateDungeon w n rnd tmr fR fL h

/-- C1: under every sequence of public operations (`SetTile`,
`GetTile`, `AddWalls`, `CleanWalls`, `GenerateRandomWalk`,
`GenerateDungeonGrid`, `GenerateDungeon`), a world satisfying the
border invariant keeps it: no cell outside `[Border, dimension-Border)`
ever holds `TileFloor`. -/
theorem floorInv_applyOps (w : World) (ops : List WorldOp) (h : floorInv w) :
    floorInv (applyOps w ops) := by
  unfold applyOps
  exact foldl_pres floorInv applyOp floorInv_applyOp ops w h

/-- Witness for C1: the all-void default world satisfies the invariant,
and keeps it across a floor write into the margin, a generator run and
the post-processing passes. -/
theorem floorInv_applyOps_w :
    floorInv (applyOps sampleWorld
      [WorldOp.opSetTile 0 0 Tile.floor,
       WorldOp.opGenerateRandomWalk 28 rwStream rwTimer 1 20,
       WorldOp.opAddWalls, WorldOp.opCleanWalls 5]) :=
  floorInv_applyOps sampleWorld _ (fun _ _ _ hf => Tile.noConfusion hf)

/-- Buffer membership: the border test of `AddWalls`'s working state
(`Border = 0`) accepts exactly the allocated buffer. -/
def inBuf (wd ht x y : Int) : Bool := !(oobCheck wd ht 0 x y)

/-- The `[-t, t] × [-t, t]` neighborhood of `(x, y)` written by
`AddWalls`, as absolute coordinates in source iteration order. -/
def boxCells (t x y : Int) : List (Int × Int) :=
  (intRange (-t) (t + 1)).flatMap fun dx =>
    (intRange (-t) (t + 1)).map fun dy => (x + dx, y + dy)

/-- One neighborhood write of `AddWalls`: wall over a readable void. -/
def awWrite (w : World) (c : Int × Int) : World :=
  match GetTile w c.1 c.2 with
  | Except.ok Tile.void => (SetTile w c.1 c.2 Tile.wall).2
  | _ => w

/-- A fold over a concatenation of blocks is the nested fold. -/
theorem foldl_flatMap {α β γ : Type} (g : β → γ → β) (f : α → List γ) :
    ∀ (l : List α) (b : β),
      (l.flatMap f).foldl g b = l.foldl (fun acc a => (f a).foldl g acc) b
  | [], _ => rfl
  | a :: rest, b => by
    rw [List.flatMap_cons, List.foldl_append, List.foldl_cons]
    exact foldl_flatMap g f rest ((f a).foldl g b)

/-- A fold whose steps all fix the accumulator is the identity. -/
theorem foldl_id {α β : Type} (f : β → α → β) :
    ∀ (l : List α) (b : β), (∀ a ∈ l, f b a = b) → l.foldl f b = b
  | [], _, _ => rfl
  | a :: rest, b, h => by
    rw [List.foldl_cons, h a (List.mem_cons_self a rest)]
    exact foldl_id f rest b fun a' ha' => h a' (List.mem_cons_of_mem a ha')

/-- The neighborhood pass of `AddWalls` is the `awWrite` fold over the
box cell list. -/
theorem awNbhd_eq_foldl (t x y : Int) (w : World) :
    awNbhd t x y w = (boxCells t x y).foldl awWrite w := by
  unfold awNbhd boxCells
  rw [foldl_flatMap]
  simp only [List.foldl_map]
  rfl

/-- A wall write at a coordinate stores the wall. -/
theorem SetTile_wall_self (w : World) (a b : Int) :
    (SetTile w a b Tile.wall).2.tiles b a = Tile.wall := by
  rw [SetTile_nonfloor w a b Tile.wall (fun hf => Tile.noConfusion hf)]
  show updTile w.tiles b a Tile.wall b a = Tile.wall
  unfold updTile
  rw [if_pos ⟨rfl, rfl⟩]

/-- A non-floor write changes no other cell. -/
theorem SetTile_other (w : World) (a b : Int) (t : Tile) (ht : t ≠ Tile.floor)
    (y' x' : Int) (hp : ¬(y' = b ∧ x' = a)) :
    (SetTile w a b t).2.tiles y' x' = w.tiles y' x' := by
  rw [SetTile_nonfloor w a b t ht]
  show updTile w.tiles b a t y' x' = w.tiles y' x'
  unfold updTile
  rw [if_neg hp]

/-- How one pass of `AddWalls` may evolve the grid: dimensions fixed,
and each cell either untouched or turned from void/pre-wall into
wall. -/
def AwEvol (w w' : World) : Prop :=
  w'.width = w.width ∧ w'.height = w.height ∧ w'.border = w.border ∧
  w'.wallThickness = w.wallThickness ∧
  ∀ y x, w'.tiles y x = w.tiles y x ∨
    ((w.tiles y x = Tile.void ∨ w.tiles y x = Tile.preWall) ∧ w'.tiles y x = Tile.wall)

/-- `AwEvol` is reflexive. -/
theorem awEvol_refl (w : World) : AwEvol w w :=
  ⟨rfl, rfl, rfl, rfl, fun _ _ => Or.inl rfl⟩

/-- `AwEvol` is transitive. -/
theorem awEvol_trans (w1 w2 w3 : World) (h12 : AwEvol w1 w2) (h23 : AwEvol w2 w3) :
    AwEvol w1 w3 := by
  refine ⟨h23.1.trans h12.1, h23.2.1.trans h12.2.1, h23.2.2.1.trans h12.2.2.1,
    h23.2.2.2.1.trans h12.2.2.2.1, ?_⟩
  intro y x
  rcases h23.2.2.2.2 y x with h3 | h3
  · rw [h3]
    exact h12.2.2.2.2 y x
  · rcases h12.2.2.2.2 y x with h2 | h2
    · rw [h2] at h3
      exact Or.inr h3
    · exact Or.inr ⟨h2.1, h3.2⟩

/-- `awWrite` is an `AwEvol` step. -/
theorem awWrite_evol (w : World) (c : Int × Int) : AwEvol w (awWrite w c) := by
  unfold awWrite
  cases hg : GetTile w c.1 c.2 with
  | error e => exact awEvol_refl w
  | ok t =>
    cases t with
    | wall => exact awEvol_refl w
    | preWall => exact awEvol_refl w
    | floor => exact awEvol_refl w
    | void =>
      dsimp only
      have hob := GetTile_ok_oob w c.1 c.2 Tile.void hg
      refine ⟨(SetTile_frame w c.1 c.2 Tile.wall).1, (SetTile_frame w c.1 c.2 Tile.wall).2.1,
        (SetTile_frame w c.1 c.2 Tile.wall).2.2.1, (SetTile_frame w c.1 c.2 Tile.wall).2.2.2.2, ?_⟩
      intro y x
      by_cases hp : y = c.2 ∧ x = c.1
      · refine Or.inr ⟨Or.inl ?_, ?_⟩
        · rw [hp.1, hp.2]
          exact hob.2
        · rw [hp.1, hp.2]
          exact SetTile_wall_self w c.1 c.2
      · exact Or.inl (SetTile_other w c.1 c.2 Tile.wall (fun hf => Tile.noConfusion hf) y x hp)

/-- Folding `awWrite` is an `AwEvol` step. -/
theorem awWrite_foldl_evol : ∀ (cells : List (Int × Int)) (w : World),
    AwEvol w (cells.foldl awWrite w)
  | [], w => awEvol_refl w
  | c :: rest, w =>
    awEvol_trans w (awWrite w c) (rest.foldl awWrite (awWrite w c))
      (awWrite_evol w c) (awWrite_foldl_evol rest (awWrite w c))

/-- The scan body of `AddWalls` is an `AwEvol` step. -/
theorem awCell_evol (t : Int) (w : World) (p : Int × Int) : AwEvol w (awCell t w p) := by
  unfold awCell
  cases hg : GetTile w p.1 p.2 with
  | error e => exact awEvol_refl w
  | ok tl =>
    cases tl with
    | void => exact awEvol_refl w
    | wall => exact awEvol_refl w
    | floor =>
      dsimp only
      rw [awNbhd_eq_foldl]
      exact awWrite_foldl_evol (boxCells t p.1 p.2) w
    | preWall =>
      dsimp only
      have hob := GetTile_ok_oob w p.1 p.2 Tile.preWall hg
      refine ⟨(SetTile_frame w p.1 p.2 Tile.wall).1, (SetTile_frame w p.1 p.2 Tile.wall).2.1,
        (SetTile_frame w p.1 p.2 Tile.wall).2.2.1, (SetTile_frame w p.1 p.2 Tile.wall).2.2.2.2, ?_⟩
      intro y x
      by_cases hp : y = p.2 ∧ x = p.1
      · refine Or.inr ⟨Or.inr ?_, ?_⟩
        · rw [hp.1, hp.2]
          exact hob.2
        · rw [hp.1, hp.2]
          exact SetTile_wall_self w p.1 p.2
      · exact Or.inl (SetTile_other w p.1 p.2 Tile.wall (fun hf => Tile.noConfusion hf) y x hp)

/-- The whole `AddWalls` scan is an `AwEvol` step. -/
theorem awScan_foldl_evol (t : Int) : ∀ (cells : List (Int × Int)) (w : World),
    AwEvol w (cells.foldl (fun w' p => awCell t w' p) w)
  | [], w => awEvol_refl w
  | c :: rest, w =>
    awEvol_trans w (awCell t w c) (rest.foldl (fun w' p => awCell t w' p) (awCell t w c))
      (awCell_evol t w c) (awScan_foldl_evol t rest (awCell t w c))

/-- `AwEvol` preserves the floor set exactly. -/
theorem awEvol_floor_iff (w w' : World) (h : AwEvol w w') (y x : Int) :
    w'.tiles y x = Tile.floor ↔ w.tiles y x = Tile.floor := by
  rcases h.2.2.2.2 y x with he | he
  · rw [he]
  · constructor
    · intro hf
      rw [he.2] at hf
      exact absurd hf (by simp)
    · intro hf
      rcases he.1 with hv | hv <;> rw [hf] at hv <;> exact absurd hv (by simp)

/-- `AwEvol` introduces no pre-wall. -/
theorem awEvol_preWall (w w' : World) (h : AwEvol w w') (y x : Int)
    (hp : w'.tiles y x = Tile.preWall) : w.tiles y x = Tile.preWall := by
  rcases h.2.2.2.2 y x with he | he
  · rw [← he]
    exact hp
  · rw [he.2] at hp
    exact absurd hp (by simp)

/-- `AwEvol` never re-voids a cell. -/
theorem awEvol_nonvoid (w w' : World) (h : AwEvol w w') (y x : Int)
    (hv : w.tiles y x ≠ Tile.void) : w'.tiles y x ≠ Tile.void := by
  rcases h.2.2.2.2 y x with he | he
  · rw [he]
    exact hv
  · rw [he.2]
    simp

/-- `AwEvol` keeps walls. -/
theorem awEvol_wall (w w' : World) (h : AwEvol w w') (y x : Int)
    (hv : w.tiles y x = Tile.wall) : w'.tiles y x = Tile.wall := by
  rcases h.2.2.2.2 y x with he | he
  · rw [he]
    exact hv
  · exact he.2

/-- The `awWrite` fold walls every listed readable void cell. -/
theorem awWrite_foldl_wall : ∀ (cells : List (Int × Int)) (w : World) (x y : Int),
    (x, y) ∈ cells → oobCheck w.width w.height w.border x y = false →
    w.tiles y x = Tile.void → ((cells.foldl awWrite w).tiles y x = Tile.wall)
  | [], _, _, _, hm, _, _ => absurd hm (List.not_mem_nil _)
  | c :: rest, w, x, y, hm, hob, hv => by
    rw [List.foldl_cons]
    by_cases hc : c = (x, y)
    · subst hc
      have hw1 : (awWrite w (x, y)).tiles y x = Tile.wall := by
        unfold awWrite
        have hg : GetTile w x y = Except.ok Tile.void := by
          unfold GetTile
          rw [hob]
          simp [hv]
        rw [hg]
        exact SetTile_wall_self w x y
      exact awEvol_wall _ _ (awWrite_foldl_evol rest (awWrite w (x, y))) y x hw1
    · have hm' : (x, y) ∈ rest := by
        rcases List.mem_cons.mp hm with he | he
        · exact absurd he.symm hc
        · exact he
      have hev := awWrite_evol w c
      have hv1 : (awWrite w c).tiles y x = w.tiles y x := by
        unfold awWrite
        cases hg : GetTile w c.1 c.2 with
        | error e => rfl
        | ok t =>
          cases t with
          | wall => rfl
          | preWall => rfl
          | floor => rfl
          | void =>
            dsimp only
            refine SetTile_other w c.1 c.2 Tile.wall (fun hf => Tile.noConfusion hf) y x ?_
            intro hp
            apply hc
            cases c
            simp only [Prod.mk.injEq]
            exact ⟨hp.2.symm, hp.1.symm⟩
      exact awWrite_foldl_wall rest (awWrite w c) x y hm'
        (by rw [hev.1, hev.2.1, hev.2.2.1]; exact hob) (by rw [hv1]; exact hv)

/-- Scanning a floor cell walls every readable void cell of its box. -/
theorem awCell_floor_wall (t : Int) (w : World) (p q : Int × Int)
    (hfl : GetTile w p.1 p.2 = Except.ok Tile.floor)
    (hq : q ∈ boxCells t p.1 p.2)
    (hob : oobCheck w.width w.height w.border q.1 q.2 = false)
    (hv : w.tiles q.2 q.1 = Tile.void) :
    (awCell t w p).tiles q.2 q.1 = Tile.wall := by
  unfold awCell
  rw [hfl]
  dsimp only
  rw [awNbhd_eq_foldl]
  exact awWrite_foldl_wall (boxCells t p.1 p.2) w q.1 q.2 (by cases q; exact hq) hob hv

/-- Membership in a Go index range. -/
theorem intRange_mem (lo hi a : Int) : a ∈ intRange lo hi ↔ lo ≤ a ∧ a < hi := by
  unfold intRange
  rw [List.mem_map]
  constructor
  · rintro ⟨i, hi', rfl⟩
    rw [List.mem_range] at hi'
    omega
  · intro ha
    refine ⟨(a - lo).toNat, ?_, ?_⟩
    · rw [List.mem_range]
      omega
    · omega

/-- Membership in the row-major scan list. -/
theorem rowMajor_mem (wd ht x y : Int) :
    (x, y) ∈ rowMajor wd ht ↔ 0 ≤ x ∧ x < wd ∧ 0 ≤ y ∧ y < ht := by
  unfold rowMajor
  simp only [List.mem_flatMap, List.mem_map, Prod.mk.injEq]
  constructor
  · rintro ⟨y', hy', x', hx', rfl, rfl⟩
    rw [intRange_mem] at hy' hx'
    omega
  · intro h
    exact ⟨y, (intRange_mem 0 ht y).mpr (by omega), x, (intRange_mem 0 wd x).mpr (by omega),
      rfl, rfl⟩

/-- Buffer membership unfolded. -/
theorem inBuf_iff (wd ht x y : Int) :
    inBuf wd ht x y = true ↔ 0 ≤ x ∧ x < wd ∧ 0 ≤ y ∧ y < ht := by
  unfold inBuf oobCheck
  simp only [Bool.not_eq_eq_eq_not, Bool.not_true, Bool.or_eq_false_iff,
    decide_eq_false_iff_not, not_le, not_lt]
  omega

/-- Stability under the `AddWalls` pass: no readable pre-wall remains,
and no readable void sits inside the box of a readable floor. -/
def AwStable (wd ht t : Int) (tiles : Int → Int → Tile) : Prop :=
  (∀ y x : Int, inBuf wd ht x y = true → tiles y x ≠ Tile.preWall) ∧
  (∀ p q : Int × Int, inBuf wd ht p.1 p.2 = true → inBuf wd ht q.1 q.2 = true →
    tiles p.2 p.1 = Tile.floor → q ∈ boxCells t p.1 p.2 → tiles q.2 q.1 ≠ Tile.void)

/-- Scanning a readable pre-wall cell converts it to a wall. -/
theorem awCell_preWall_wall (t : Int) (w : World) (a b : Int)
    (hg : GetTile w a b = Except.ok Tile.preWall) :
    (awCell t w (a, b)).tiles b a = Tile.wall := by
  unfold awCell
  dsimp only
  rw [hg]
  dsimp only
  exact SetTile_wall_self w a b

/-- Buffer membership gives a false border-0 bounds test. -/
theorem inBuf_oob (wd ht x y : Int) (h : inBuf wd ht x y = true) :
    oobCheck wd ht 0 x y = false := by
  unfold inBuf at h
  simpa using h

/-- `AddWalls` preserves the scalar configuration. -/
theorem AddWalls_frame (w : World) :
    (AddWalls w).width = w.width ∧ (AddWalls w).height = w.height ∧
    (AddWalls w).border = w.border ∧ (AddWalls w).wallThickness = w.wallThickness := by
  unfold AddWalls
  dsimp only
  have hev := awScan_foldl_evol w.wallThickness (rowMajor w.width w.height)
    { w with border := 0 }
  exact ⟨hev.1, hev.2.1, rfl, hev.2.2.2.1⟩

/-- After `AddWalls`, no buffer cell holds a pre-wall and no buffer
void cell lies inside the box of a buffer floor cell: the pass is
stable. -/
theorem AddWalls_stable (w : World) :
    AwStable w.width w.height w.wallThickness ((AddWalls w).tiles) := by
  have haw : (AddWalls w).tiles = ((rowMajor w.width w.height).foldl
      (fun w' p => awCell w.wallThickness w' p) { w with border := 0 }).tiles := rfl
  constructor
  · intro y x hin hpre
    rw [haw] at hpre
    have hmem : (x, y) ∈ rowMajor w.width w.height :=
      (rowMajor_mem w.width w.height x y).mpr ((inBuf_iff w.width w.height x y).mp hin)
    obtain ⟨l1, l2, hsplit⟩ := List.append_of_mem hmem
    rw [hsplit, List.foldl_append, List.foldl_cons] at hpre
    have E1 := awScan_foldl_evol w.wallThickness l1 { w with border := 0 }
    have Ec := awCell_evol w.wallThickness
      (l1.foldl (fun w' p => awCell w.wallThickness w' p) { w with border := 0 }) (x, y)
    have E2 := awScan_foldl_evol w.wallThickness l2
      (awCell w.wallThickness
        (l1.foldl (fun w' p => awCell w.wallThickness w' p) { w with border := 0 }) (x, y))
    have hwc := awEvol_preWall _ _ E2 y x hpre
    have hw1 := awEvol_preWall _ _ Ec y x hwc
    have hget : GetTile (l1.foldl (fun w' p => awCell w.wallThickness w' p)
        { w with border := 0 }) x y = Except.ok Tile.preWall := by
      unfold GetTile
      rw [E1.1, E1.2.1, E1.2.2.1]
      rw [inBuf_oob w.width w.height x y hin]
      simp [hw1]
    have hwall := awCell_preWall_wall w.wallThickness
      (l1.foldl (fun w' p => awCell w.wallThickness w' p) { w with border := 0 }) x y hget
    rw [hwall] at hwc
    exact absurd hwc (by simp)
  · intro p q hip hiq hfl hbox hv
    rw [haw] at hfl hv
    have hmem : p ∈ rowMajor w.width w.height := by
      cases p with
      | mk a b =>
        exact (rowMajor_mem w.width w.height a b).mpr ((inBuf_iff w.width w.height a b).mp hip)
    obtain ⟨l1, l2, hsplit⟩ := List.append_of_mem hmem
    rw [hsplit, List.foldl_append, List.foldl_cons] at hfl hv
    have E1 := awScan_foldl_evol w.wallThickness l1 { w with border := 0 }
    have Ec := awCell_evol w.wallThickness
      (l1.foldl (fun w' p' => awCell w.wallThickness w' p') { w with border := 0 }) p
    have E2 := awScan_foldl_evol w.wallThickness l2
      (awCell w.wallThickness
        (l1.foldl (fun w' p' => awCell w.wallThickness w' p') { w with border := 0 }) p)
    have hflc := (awEvol_floor_iff _ _ E2 p.2 p.1).mp hfl
    have hfl1 := (awEvol_floor_iff _ _ Ec p.2 p.1).mp hflc
    have hob1 : oobCheck w.width w.height 0 p.1 p.2 = false :=
      inBuf_oob w.width w.height p.1 p.2 hip
    have hobq : oobCheck w.width w.height 0 q.1 q.2 = false :=
      inBuf_oob w.width w.height q.1 q.2 hiq
    have hget : GetTile (l1.foldl (fun w' p' => awCell w.wallThickness w' p')
        { w with border := 0 }) p.1 p.2 = Except.ok Tile.floor := by
      unfold GetTile
      rw [E1.1, E1.2.1, E1.2.2.1, hob1]
      simp [hfl1]
    have hvq : (awCell w.wallThickness
        (l1.foldl (fun w' p' => awCell w.wallThickness w' p') { w with border := 0 })
        p).tiles q.2 q.1 = Tile.void := by
      rcases Ec.2.2.2.2 q.2 q.1 with he | he
      · by_contra hne
        exact (awEvol_nonvoid _ _ E2 q.2 q.1 hne) hv
      · by_contra _
        have := awEvol_wall _ _ E2 q.2 q.1 he.2
        rw [this] at hv
        exact absurd hv (by simp)
    have hv1 : (l1.foldl (fun w' p' => awCell w.wallThickness w' p')
        { w with border := 0 }).tiles q.2 q.1 = Tile.void := by
      rcases Ec.2.2.2.2 q.2 q.1 with he | he
      · rw [← he]
        exact hvq
      · rw [he.2] at hvq
        exact absurd hvq (by simp)
    have hwall := awCell_floor_wall w.wallThickness
      (l1.foldl (fun w' p' => awCell w.wallThickness w' p') { w with border := 0 })
      p q hget hbox (by rw [E1.1, E1.2.1, E1.2.2.1]; exact hobq) hv1
    rw [hwall] at hvq
    exact absurd hvq (by simp)

/-- On a stable grid, `AddWalls` changes nothing. -/
theorem AddWalls_of_stable (w : World)
    (hs : AwStable w.width w.height w.wallThickness w.tiles) (y x : Int) :
    (AddWalls w).tiles y x = w.tiles y x := by
  unfold AddWalls
  dsimp only
  have hfold : (rowMajor w.width w.height).foldl
      (fun w' p => awCell w.wallThickness w' p) { w with border := 0 } =
      { w with border := 0 } := by
    apply foldl_id
    intro p _
    unfold awCell
    cases hg : GetTile { w with border := 0 } p.1 p.2 with
    | error e => rfl
    | ok tl =>
      have hob := GetTile_ok_oob { w with border := 0 } p.1 p.2 tl hg
      have hibp : inBuf w.width w.height p.1 p.2 = true := by
        unfold inBuf
        have : oobCheck w.width w.height 0 p.1 p.2 = false := hob.1
        rw [this]
        rfl
      cases tl with
      | void => rfl
      | wall => rfl
      | preWall => exact absurd hob.2 (hs.1 p.2 p.1 hibp)
      | floor =>
        dsimp only
        rw [awNbhd_eq_foldl]
        apply foldl_id
        intro q hq
        unfold awWrite
        cases hg2 : GetTile { w with border := 0 } q.1 q.2 with
        | error e => rfl
        | ok tl2 =>
          have hob2 := GetTile_ok_oob { w with border := 0 } q.1 q.2 tl2 hg2
          cases tl2 with
          | wall => rfl
          | preWall => rfl
          | floor => rfl
          | void =>
            have hibq : inBuf w.width w.height q.1 q.2 = true := by
              unfold inBuf
              have : oobCheck w.width w.height 0 q.1 q.2 = false := hob2.1
              rw [this]
              rfl
            exact absurd hob2.2 (hs.2 p q hibp hibq hob.2 hq)
  rw [hfold]

/-- C8: `AddWalls` is idempotent — applying it twice yields exactly the
same tile buffer as applying it once, because the first pass leaves no
readable pre-wall and no readable void next to a floor. -/
theorem AddWalls_idempotent (w : World) (y x : Int) :
    (AddWalls (AddWalls w)).tiles y x = (AddWalls w).tiles y x := by
  apply AddWalls_of_stable
  have hst := AddWalls_stable w
  have hfr := AddWalls_frame w
  rw [hfr.1, hfr.2.1, hfr.2.2.2]
  exact hst

/-- The occupied cells of the `rooms` lattice, as `(x, y)` pairs of the
`mw × mh` index rectangle. -/
def occFinset (rooms : Int → Int → Bool) (mw mh : Int) : Finset (Int × Int) :=
  ((Finset.Icc 0 (mw - 1)) ×ˢ (Finset.Icc 0 (mh - 1))).filter fun p => rooms p.2 p.1 = true

/-- 4-adjacency of lattice cells (as `(x, y)` pairs). -/
def LatAdj (p q : Int × Int) : Prop :=
  (p.1 = q.1 ∧ (p.2 = q.2 + 1 ∨ q.2 = p.2 + 1)) ∨
  (p.2 = q.2 ∧ (p.1 = q.1 + 1 ∨ q.1 = p.1 + 1))

/-- One step between occupied, adjacent lattice cells. -/
def LatStep (rooms : Int → Int → Bool) (p q : Int × Int) : Prop :=
  rooms p.2 p.1 = true ∧ rooms q.2 q.1 = true ∧ LatAdj p q

/-- Reachability through occupied, 4-adjacent lattice cells. -/
def LatReach (rooms : Int → Int → Bool) : Int × Int → Int × Int → Prop :=
  Relation.ReflTransGen (LatStep rooms)

/-- Lattice adjacency is symmetric. -/
theorem latAdj_symm (p q : Int × Int) (h : LatAdj p q) : LatAdj q p := by
  rcases h with ⟨h1, h2⟩ | ⟨h1, h2⟩
  · exact Or.inl ⟨h1.symm, h2.symm⟩
  · exact Or.inr ⟨h1.symm, h2.symm⟩

/-- Occupied-step symmetry. -/
theorem latStep_symm (rooms : Int → Int → Bool) (p q : Int × Int)
    (h : LatStep rooms p q) : LatStep rooms q p :=
  ⟨h.2.1, h.1, latAdj_symm p q h.2.2⟩

/-- Occupied-reachability is symmetric. -/
theorem latReach_symm (rooms : Int → Int → Bool) (p q : Int × Int)
    (h : LatReach rooms p q) : LatReach rooms q p :=
  Relation.ReflTransGen.symmetric (fun _ _ hs => latStep_symm rooms _ _ hs) h

/-- Occupied-reachability is monotone in the occupied set. -/
theorem latReach_mono (r1 r2 : Int → Int → Bool)
    (hm : ∀ y x, r1 y x = true → r2 y x = true) (p q : Int × Int)
    (h : LatReach r1 p q) : LatReach r2 p q :=
  Relation.ReflTransGen.mono
    (fun a b hs => ⟨hm a.2 a.1 hs.1, hm b.2 b.1 hs.2.1, hs.2.2⟩) h

/-- Marking unfolded. -/
theorem markRoom_iff (rooms : Int → Int → Bool) (iy ix y x : Int) :
    markRoom rooms iy ix y x = true ↔ (y = iy ∧ x = ix) ∨ rooms y x = true := by
  unfold markRoom
  by_cases hp : y = iy ∧ x = ix
  · rw [if_pos hp]
    simp [hp]
  · rw [if_neg hp]
    simp [hp]

/-- Marking keeps old marks. -/
theorem markRoom_mono (rooms : Int → Int → Bool) (iy ix y x : Int)
    (h : rooms y x = true) : markRoom rooms iy ix y x = true :=
  (markRoom_iff rooms iy ix y x).mpr (Or.inr h)

/-- The marked cell is marked. -/
theorem markRoom_self (rooms : Int → Int → Bool) (iy ix : Int) :
    markRoom rooms iy ix iy ix = true :=
  (markRoom_iff rooms iy ix iy ix).mpr (Or.inl ⟨rfl, rfl⟩)

/-- Marking an already-marked cell changes nothing. -/
theorem markRoom_marked (rooms : Int → Int → Bool) (iy ix : Int)
    (h : rooms iy ix = true) (y x : Int) : markRoom rooms iy ix y x = rooms y x := by
  unfold markRoom
  by_cases hp : y = iy ∧ x = ix
  · rw [if_pos hp, hp.1, hp.2, h]
  · rw [if_neg hp]

/-- Pointwise-equal lattices have the same occupied set. -/
theorem occFinset_congr (r1 r2 : Int → Int → Bool) (mw mh : Int)
    (h : ∀ y x, r1 y x = r2 y x) : occFinset r1 mw mh = occFinset r2 mw mh := by
  unfold occFinset
  refine Finset.filter_congr ?_
  intro p _
  rw [h p.2 p.1]

/-- Marking one cell grows the occupied set by at most one. -/
theorem occFinset_mark_card (rooms : Int → Int → Bool) (mw mh iy ix : Int) :
    (occFinset (markRoom rooms iy ix) mw mh).card ≤ (occFinset rooms mw mh).card + 1 := by
  have hsub : occFinset (markRoom rooms iy ix) mw mh ⊆
      insert (ix, iy) (occFinset rooms mw mh) := by
    intro p hp
    unfold occFinset at hp
    rw [Finset.mem_filter] at hp
    rcases (markRoom_iff rooms iy ix p.2 p.1).mp hp.2 with hc | hc
    · rw [Finset.mem_insert]
      left
      cases p
      simp only [Prod.mk.injEq]
      exact ⟨hc.2, hc.1⟩
    · rw [Finset.mem_insert]
      right
      unfold occFinset
      rw [Finset.mem_filter]
      exact ⟨hp.1, hc⟩
  calc (occFinset (markRoom rooms iy ix) mw mh).card
      ≤ (insert (ix, iy) (occFinset rooms mw mh)).card := Finset.card_le_card hsub
    _ ≤ (occFinset rooms mw mh).card + 1 := Finset.card_insert_le _ _

/-- Flattening after appending to the last run appends the coordinate. -/
theorem appendLastRun_flatten : ∀ (runs : List (List Coord)) (c : Coord),
    (appendLastRun runs c).flatten = runs.flatten ++ [c]
  | [], c => rfl
  | r :: rest, c => by
    cases rest with
    | nil =>
      unfold appendLastRun
      simp
    | cons r2 rest2 =>
      have ih := appendLastRun_flatten (r2 :: rest2) c
      unfold appendLastRun at ih ⊢
      simp only [List.dropLast_cons_of_ne_nil (List.cons_ne_nil r2 rest2),
        List.getLastD_cons]
      simp only [List.flatten_cons] at ih ⊢
      rw [List.cons_append, List.flatten_cons]
      simp only [List.getLastD_cons] at ih
      rw [ih]
      simp

/-- Marking a cell adjacent to the marked cursor keeps the occupied set
pairwise connected. -/
theorem latReach_mark (rooms : Int → Int → Bool) (sx sy sx1 sy1 : Int)
    (hcur : rooms sy sx = true) (hadj : LatAdj (sx, sy) (sx1, sy1))
    (hpair : ∀ p q : Int × Int, rooms p.2 p.1 = true → rooms q.2 q.1 = true →
      LatReach rooms p q) :
    ∀ p q : Int × Int, markRoom rooms sy1 sx1 p.2 p.1 = true →
      markRoom rooms sy1 sx1 q.2 q.1 = true → LatReach (markRoom rooms sy1 sx1) p q := by
  intro p q hp hq
  have hmono : ∀ y x, rooms y x = true → markRoom rooms sy1 sx1 y x = true :=
    fun y x h => markRoom_mono rooms sy1 sx1 y x h
  have hstep : LatStep (markRoom rooms sy1 sx1) (sx, sy) (sx1, sy1) :=
    ⟨hmono sy sx hcur, markRoom_self rooms sy1 sx1, hadj⟩
  have hback : LatReach (markRoom rooms sy1 sx1) (sx1, sy1) (sx, sy) :=
    Relation.ReflTransGen.single (latStep_symm _ _ _ hstep)
  rcases (markRoom_iff rooms sy1 sx1 p.2 p.1).mp hp with hpc | hpo
  · have hp' : p = (sx1, sy1) := by
      cases p
      simp only [Prod.mk.injEq]
      exact ⟨hpc.2, hpc.1⟩
    rcases (markRoom_iff rooms sy1 sx1 q.2 q.1).mp hq with hqc | hqo
    · have hq' : q = (sx1, sy1) := by
        cases q
        simp only [Prod.mk.injEq]
        exact ⟨hqc.2, hqc.1⟩
      rw [hp', hq']
      exact Relation.ReflTransGen.refl
    · rw [hp']
      exact hback.trans
        (latReach_mono rooms _ hmono (sx, sy) q (hpair (sx, sy) q hcur hqo))
  · rcases (markRoom_iff rooms sy1 sx1 q.2 q.1).mp hq with hqc | hqo
    · have hq' : q = (sx1, sy1) := by
        cases q
        simp only [Prod.mk.injEq]
        exact ⟨hqc.2, hqc.1⟩
      rw [hq']
      exact (latReach_mono rooms _ hmono p (sx, sy) (hpair p (sx, sy) hpo hcur)).trans
        (Relation.ReflTransGen.single hstep)
    · exact latReach_mono rooms _ hmono p q (hpair p q hpo hqo)

/-- On an empty lattice, marking one cell yields a trivially connected
occupied set. -/
theorem latReach_mark_empty (rooms : Int → Int → Bool) (sx1 sy1 : Int)
    (hemp : ∀ y x : Int, rooms y x = false) :
    ∀ p q : Int × Int, markRoom rooms sy1 sx1 p.2 p.1 = true →
      markRoom rooms sy1 sx1 q.2 q.1 = true → LatReach (markRoom rooms sy1 sx1) p q := by
  intro p q hp hq
  rcases (markRoom_iff rooms sy1 sx1 p.2 p.1).mp hp with hpc | hpo
  · rcases (markRoom_iff rooms sy1 sx1 q.2 q.1).mp hq with hqc | hqo
    · have hpq : p = q := by
        cases p
        cases q
        simp only [Prod.mk.injEq]
        dsimp only at hpc hqc
        exact ⟨hpc.2.trans hqc.2.symm, hpc.1.trans hqc.1.symm⟩
      rw [hpq]
      exact Relation.ReflTransGen.refl
    · rw [hemp q.2 q.1] at hqo
      exact absurd hqo (by simp)
  · rw [hemp p.2 p.1] at hpo
    exact absurd hpo (by simp)

/-- The random cardinal step of the lattice walk moves to a 4-adjacent
cell. -/
theorem step_latAdj (sx sy : Int) (d : Nat) (hd : d < 4) :
    LatAdj (sx, sy)
      (if d = 0 then sx - 1 else if d = 1 then sx + 1 else sx,
       if d = 2 then sy - 1 else if d = 3 then sy + 1 else sy) := by
  have hcases : d = 0 ∨ d = 1 ∨ d = 2 ∨ d = 3 := by omega
  rcases hcases with rfl | rfl | rfl | rfl
  · show LatAdj (sx, sy) (sx - 1, sy)
    exact Or.inr ⟨rfl, Or.inl (by omega)⟩
  · show LatAdj (sx, sy) (sx + 1, sy)
    exact Or.inr ⟨rfl, Or.inr rfl⟩
  · show LatAdj (sx, sy) (sx, sy - 1)
    exact Or.inl ⟨rfl, Or.inl (by omega)⟩
  · show LatAdj (sx, sy) (sx, sy + 1)
    exact Or.inl ⟨rfl, Or.inr rfl⟩

/-- Outcome invariant of the lattice placement loop: when the loop runs
to completion, at most `n` lattice cells are occupied and the occupied
cells are pairwise reachable through occupied 4-adjacent steps. -/
theorem gridLoop_done_inv (mw mh n : Int) (rnd : Nat → Nat) (tmr : Nat → TimerSignal) :
    ∀ (fuel : Nat) (rc sx sy : Int) (rooms : Int → Int → Bool) (runs : List (List Coord))
      (rk tk : Nat) (rooms' : Int → Int → Bool) (runs' : List (List Coord)) (rk' tk' : Nat),
      0 ≤ rc → ((occFinset rooms mw mh).card : Int) + rc ≤ n →
      (∀ c ∈ runs.flatten, rooms c.y c.x = true) →
      (∀ p q : Int × Int, rooms p.2 p.1 = true → rooms q.2 q.1 = true → LatReach rooms p q) →
      ((∀ y x : Int, rooms y x = false) ∨ rooms sy sx = true) →
      gridLoop mw mh rnd tmr fuel rc sx sy rooms runs rk tk =
        GridLoopOut.done rooms' runs' rk' tk' →
      ((occFinset rooms' mw mh).card : Int) ≤ n ∧
        (∀ p q : Int × Int, rooms' p.2 p.1 = true → rooms' q.2 q.1 = true → LatReach rooms' p q)
  | 0, rc, sx, sy, rooms, runs, rk, tk, rooms', runs', rk', tk',
      h0, hcard, hruns, hpair, hcur, heq => by
    exact absurd heq (by simp [gridLoop])
  | fuel + 1, rc, sx, sy, rooms, runs, rk, tk, rooms', runs', rk', tk',
      h0, hcard, hruns, hpair, hcur, heq => by
    simp only [gridLoop] at heq
    by_cases hrc : rc > 0
    · rw [if_pos hrc] at heq
      cases htm : tmr tk with
      | terr => rw [htm] at heq; exact absurd heq (by simp)
      | tretry => rw [htm] at heq; exact absurd heq (by simp)
      | tok =>
        rw [htm] at heq
        dsimp only at heq
        set sx1 : Int := (if rnd rk % 4 = 0 then sx - 1 else
          if rnd rk % 4 = 1 then sx + 1 else sx) with hsx1
        set sy1 : Int := (if rnd rk % 4 = 2 then sy - 1 else
          if rnd rk % 4 = 3 then sy + 1 else sy) with hsy1
        have hadj : LatAdj (sx, sy) (sx1, sy1) := by
          rw [hsx1, hsy1]
          exact step_latAdj sx sy (rnd rk % 4) (Nat.mod_lt _ (by omega))
        by_cases hrej : sx1 ≥ mw - 1 ∨ sx1 ≤ 0 ∨ sy1 ≥ mh - 1 ∨ sy1 ≤ 0 ∨
            ((countAdj rooms mw mh sy1 sx1 : Int) ≥ 2 ∧ rooms sy1 sx1 = true)
        · rw [if_pos hrej] at heq
          cases hfind : List.find? (fun c => decide ((countAdj rooms mw mh c.y c.x : Int) ≥ 0) &&
              decide ((countAdj rooms mw mh c.y c.x : Int) ≤ 2)) runs.flatten with
          | none => rw [hfind] at heq; exact absurd heq (by simp)
          | some c =>
            rw [hfind] at heq
            have hcmem := List.mem_of_find?_eq_some hfind
            have hcm : rooms c.y c.x = true := hruns c hcmem
            have hpe : ∀ y x, markRoom rooms c.y c.x y x = rooms y x :=
              markRoom_marked rooms c.y c.x hcm
            refine gridLoop_done_inv mw mh n rnd tmr fuel rc c.x c.y _ _ _ _
              rooms' runs' rk' tk' h0 ?_ ?_ ?_ ?_ heq
            · rw [occFinset_congr _ rooms mw mh hpe]
              exact hcard
            · intro c' hc'
              rw [appendLastRun_flatten, List.mem_append] at hc'
              rcases hc' with hc' | hc'
              · rw [List.flatten_append] at hc'
                simp only [List.flatten_cons, List.flatten_nil, List.append_nil] at hc'
                exact markRoom_mono _ _ _ _ _ (hruns c' hc')
              · rw [List.mem_singleton] at hc'
                subst hc'
                exact markRoom_self rooms c.y c.x
            · intro p q hp hq
              rw [hpe p.2 p.1] at hp
              rw [hpe q.2 q.1] at hq
              exact latReach_mono rooms _
                (fun y x h => markRoom_mono rooms c.y c.x y x h) p q (hpair p q hp hq)
            · exact Or.inr (markRoom_self rooms c.y c.x)
        · rw [if_neg hrej] at heq
          refine gridLoop_done_inv mw mh n rnd tmr fuel (rc - 1) sx1 sy1 _ _ _ _
            rooms' runs' rk' tk' (by omega) ?_ ?_ ?_ ?_ heq
          · have hm := occFinset_mark_card rooms mw mh sy1 sx1
            omega
          · intro c' hc'
            rw [appendLastRun_flatten, List.mem_append] at hc'
            rcases hc' with hc' | hc'
            · exact markRoom_mono _ _ _ _ _ (hruns c' hc')
            · rw [List.mem_singleton] at hc'
              subst hc'
              exact markRoom_self rooms sy1 sx1
          · rcases hcur with hemp | hm
            · exact latReach_mark_empty rooms sx1 sy1 hemp
            · exact latReach_mark rooms sx sy sx1 sy1 hm hadj hpair
          · exact Or.inr (markRoom_self rooms sy1 sx1)
    · rw [if_neg hrc] at heq
      injection heq with h1 h2 h3 h4
      subst h1
      constructor
      · omega
      · exact hpair

/-- A successful `gridAttempt` returns the lattice of its final
placement loop, which occupies at most `n` cells, pairwise connected. -/
theorem gridAttempt_success (n mw mh s : Int) (rnd : Nat → Nat) (tmr : Nat → TimerSignal)
    (fuelL : Nat) :
    ∀ (fuelR : Nat) (w : World) (rk tk : Nat) (rooms : Int → Int → Bool) (w' : World),
      0 ≤ n →
      gridAttempt n mw mh s rnd tmr fuelL fuelR w rk tk = (Except.ok rooms, w') →
      ((occFinset rooms mw mh).card : Int) ≤ n ∧
        (∀ p q : Int × Int, rooms p.2 p.1 = true → rooms q.2 q.1 = true → LatReach rooms p q)
  | 0, w, rk, tk, rooms, w', h0, heq => by
    exact absurd heq (by simp [gridAttempt])
  | fuelR + 1, w, rk, tk, rooms, w', h0, heq => by
    simp only [gridAttempt] at heq
    cases hL : gridLoop mw mh rnd tmr fuelL n (mw.tdiv 2) (mh.tdiv 2)
        (fun _ _ => false) [[]] rk tk with
    | noFuel => rw [hL] at heq; exact absurd heq (by simp)
    | fail e => rw [hL] at heq; exact absurd heq (by simp)
    | retryRq rk2 tk2 =>
      rw [hL] at heq
      exact gridAttempt_success n mw mh s rnd tmr fuelL fuelR _ rk2 tk2 rooms w' h0 heq
    | done rooms2 runs2 rk2 tk2 =>
      rw [hL] at heq
      dsimp only at heq
      rcases hm : gridMaterialize s (ClearTiles w w.width w.height).corridorSize
          (ClearTiles w w.width w.height).wallThickness
          (ClearTiles w w.width w.height).allowRandomCorridorOffset rnd runs2
          (ClearTiles w w.width w.height) rk2 with ⟨w2, rk3⟩
      rw [hm] at heq
      dsimp only at heq
      injection heq with ha hb
      injection ha with ha2
      subst ha2
      have hemp : occFinset (fun _ _ => false) mw mh = ∅ := by
        unfold occFinset
        ext p
        simp
      refine gridLoop_done_inv mw mh n rnd tmr fuelL n (mw.tdiv 2) (mh.tdiv 2)
        (fun _ _ => false) [[]] rk tk rooms2 runs2 rk2 tk2 h0 ?_ ?_ ?_ ?_ hL
      · rw [hemp]
        simpa using h0
      · intro c hc
        simp at hc
      · intro p q hp hq
        exact absurd hp (by simp)
      · exact Or.inl fun _ _ => rfl


/-- The 80×80 default-configured world (9×9 placement lattice). -/
def gridWorld : World := { sampleWorld with width := 80, height := 80 }

/-- A direction stream (right, left, right) that makes the lattice walk
revisit an already occupied cell, so one of the three room slots places
no new room. -/
def gridStream : Nat → Nat := fun k => [1, 0, 1].getD k 0

/-- The lattice returned by a `gridAttempt` result (all-false on
error). -/
def gridRoomsOf (r : Except GenErr (Int → Int → Bool) × World) : Int → Int → Bool :=
  match r.1 with
  | Except.ok rooms => rooms
  | Except.error _ => fun _ _ => false

/-- A `gridAttempt` result whose first component is a success is the
pair of that success value and its own world component. -/
theorem gridRoomsOf_eta (r : Except GenErr (Int → Int → Bool) × World)
    (h : ∃ x, r.1 = Except.ok x) : r = (Except.ok (gridRoomsOf r), r.2) := by
  obtain ⟨x, hx⟩ := h
  have h1 : gridRoomsOf r = x := by simp [gridRoomsOf, hx]
  calc r = (r.1, r.2) := rfl
  _ = (Except.ok (gridRoomsOf r), r.2) := by rw [hx, h1]

set_option maxRecDepth 8192 in
/-- Counterexample to C4: on the 80×80 world with room count 3 and the
direction stream (right, left, right), `GenerateDungeonGrid` succeeds,
yet the lattice of the moment the placement loop ended holds only 2
occupied cells — the third slot re-accepted an already occupied cell
that had at most one occupied neighbor, marking nothing new. -/
theorem GenerateDungeonGrid_exact_count_counterexample :
    (GenerateDungeonGrid gridWorld 3 gridStream rwTimer 5 100).1 = Except.ok () ∧
    (gridAttempt 3 9 9 8 gridStream rwTimer 100 5 gridWorld 0 0).1 =
      Except.ok (gridRoomsOf (gridAttempt 3 9 9 8 gridStream rwTimer 100 5 gridWorld 0 0)) ∧
    (occFinset (gridRoomsOf (gridAttempt 3 9 9 8 gridStream rwTimer 100 5 gridWorld 0 0))
      9 9).card = 2 :=
  ⟨rfl, rfl, by decide⟩

/-- C4 (amended): when `GenerateDungeonGrid(n)` succeeds for a room
count `n ≥ 0` within lattice capacity, the lattice of the moment its
placement loop ended holds at most `n` occupied cells — not always
exactly `n`, since an accepted step may land on an already occupied
cell — and every occupied cell is reachable from every other occupied
cell (in particular from the first placed cell) via steps between
4-adjacent occupied cells. -/
theorem GenerateDungeonGrid_success_rooms (w : World) (n : Int) (rnd : Nat → Nat)
    (tmr : Nat → TimerSignal) (fR fL : Nat) (rooms : Int → Int → Bool) (w' : World)
    (h0 : 0 ≤ n)
    (hcap : n ≤ (((w.width - w.border * 2).tdiv w.maxRoomWidth) - 2) *
      (((w.height - w.border * 2).tdiv w.maxRoomWidth) - 2))
    (hatt : gridAttempt n ((w.width - w.border * 2).tdiv w.maxRoomWidth)
      ((w.height - w.border * 2).tdiv w.maxRoomWidth) w.maxRoomWidth rnd tmr fL fR w 0 0 =
      (Except.ok rooms, w')) :
    (GenerateDungeonGrid w n rnd tmr fR fL).1 = Except.ok () ∧
    ((occFinset rooms ((w.width - w.border * 2).tdiv w.maxRoomWidth)
      ((w.height - w.border * 2).tdiv w.maxRoomWidth)).card : Int) ≤ n ∧
    (∀ p q : Int × Int, rooms p.2 p.1 = true → rooms q.2 q.1 = true → LatReach rooms p q) := by
  have hmain := gridAttempt_success n ((w.width - w.border * 2).tdiv w.maxRoomWidth)
    ((w.height - w.border * 2).tdiv w.maxRoomWidth) w.maxRoomWidth rnd tmr fL fR
    w 0 0 rooms w' h0 hatt
  refine ⟨?_, hmain.1, hmain.2⟩
  unfold GenerateDungeonGrid
  dsimp only
  rw [if_neg (not_lt.mpr hcap)]
  rw [hatt]

set_option maxRecDepth 8192 in
/-- Witness for the amended C4: the deterministic run of the
counterexample satisfies the amended bound. -/
theorem GenerateDungeonGrid_success_rooms_w :
    (GenerateDungeonGrid gridWorld 3 gridStream rwTimer 5 100).1 = Except.ok () ∧
    ((occFinset (gridRoomsOf (gridAttempt 3 9 9 8 gridStream rwTimer 100 5 gridWorld 0 0))
      9 9).card : Int) ≤ 3 :=
  have h := GenerateDungeonGrid_success_rooms gridWorld 3 gridStream rwTimer 5 100
    (gridRoomsOf (gridAttempt 3 9 9 8 gridStream rwTimer 100 5 gridWorld 0 0))
    (gridAttempt 3 9 9 8 gridStream rwTimer 100 5 gridWorld 0 0).2
    (by decide) (by decide)
    (gridRoomsOf_eta (gridAttempt 3 9 9 8 gridStream rwTimer 100 5 gridWorld 0 0)
      ⟨gridRoomsOf (gridAttempt 3 9 9 8 gridStream rwTimer 100 5 gridWorld 0 0), rfl⟩)
  ⟨h.1, h.2.1⟩

/-- Every buffer cell holds `TileVoid` or `TileFloor` — the state of
the grid throughout the carving loop of `GenerateRandomWalk` (cleared
at attempt start, floor writes only). -/
def onlyVF (w : World) : Prop :=
  ∀ b a : Int, w.tiles b a = Tile.void ∨ w.tiles b a = Tile.floor

/-- Floor-cell witnesses at the four extremes of the cursor bounding
box recorded by the carving loop, all in columns `≥ 1`. -/
def rwWit (w : World) (minX maxX minY maxY : Int) : Prop :=
  (1 ≤ minX ∧ ∃ y1, w.tiles y1 minX = Tile.floor) ∧
  (1 ≤ maxX ∧ ∃ y2, w.tiles y2 maxX = Tile.floor) ∧
  (∃ x1, 1 ≤ x1 ∧ w.tiles minY x1 = Tile.floor) ∧
  (∃ x2, 1 ≤ x2 ∧ w.tiles maxY x2 = Tile.floor)

/-- The bounding box of the floor cells spans at least half the grid
width or at least half the grid height: two floor cells at horizontal
distance `≥ Width/2`, or two at vertical distance `≥ Height/2`. -/
def floorBoxSpans (w : World) : Prop :=
  (∃ x1 y1 x2 y2 : Int, w.tiles y1 x1 = Tile.floor ∧ w.tiles y2 x2 = Tile.floor ∧
    w.width.tdiv 2 ≤ x2 - x1) ∨
  (∃ x1 y1 x2 y2 : Int, w.tiles y1 x1 = Tile.floor ∧ w.tiles y2 x2 = Tile.floor ∧
    w.height.tdiv 2 ≤ y2 - y1)

/-- Truncated division of a natural cast by 2 is the cast of the
natural division. -/
theorem tdiv_two_nat (n : Nat) : ((n : Int)).tdiv 2 = ((n / 2 : Nat) : Int) := rfl

/-- For `cs ≤ 1` the half-block radius `cs/2` is non-positive. -/
theorem tdiv2_nonpos (cs : Int) (h : cs ≤ 1) : cs.tdiv 2 ≤ 0 := by
  rcases le_or_lt cs 0 with h0 | h0
  · obtain ⟨n, rfl⟩ : ∃ n : Nat, cs = -(n : Int) := ⟨(-cs).toNat, by omega⟩
    rw [Int.neg_tdiv, tdiv_two_nat]
    have hnn : (0 : Int) ≤ ((n / 2 : Nat) : Int) := Int.natCast_nonneg _
    omega
  · have hc : cs = 1 := by omega
    subst hc
    decide

/-- For `cs ≥ 2` the half-block radius `cs/2` is at least 1. -/
theorem tdiv2_pos (cs : Int) (h : 2 ≤ cs) : 1 ≤ cs.tdiv 2 := by
  obtain ⟨n, rfl⟩ : ∃ n : Nat, cs = (n : Int) := ⟨cs.toNat, by omega⟩
  rw [tdiv_two_nat]
  have hn : 2 ≤ n := by exact_mod_cast h
  have h2 : 1 ≤ n / 2 := by omega
  omega

/-- Truncated halving of a non-negative integer is non-negative. -/
theorem tdiv2_nonneg (a : Int) (h : 0 ≤ a) : 0 ≤ a.tdiv 2 := by
  obtain ⟨n, rfl⟩ : ∃ n : Nat, a = (n : Int) := ⟨a.toNat, by omega⟩
  rw [tdiv_two_nat]
  exact Int.natCast_nonneg _

/-- Passing the bounds test pins the coordinate inside the playable
area. -/
theorem oobCheck_false_iff (wd ht b x y : Int) :
    oobCheck wd ht b x y = false ↔ b ≤ x ∧ x < wd - b ∧ b ≤ y ∧ y < ht - b := by
  unfold oobCheck
  simp only [Bool.or_eq_false_iff, decide_eq_false_iff_not, not_le, not_lt]
  omega

/-- A failing `GetTile` means the bounds test failed. -/
theorem GetTile_error_oob (w : World) (x y : Int) (e : GenErr)
    (h : GetTile w x y = Except.error e) :
    oobCheck w.width w.height w.border x y = true := by
  by_cases hc : oobCheck w.width w.height w.border x y
  · exact hc
  · unfold GetTile at h
    rw [if_neg hc] at h
    exact absurd h (by simp)

/-- A successful floor write certifies the bounds test and performs the
pointwise update. -/
theorem SetTile_floor_ok_iff (w : World) (x y : Int) (r : Unit) (w1 : World)
    (hs : SetTile w x y Tile.floor = (Except.ok r, w1)) :
    oobCheck w.width w.height w.border x y = false ∧
    w1 = { w with tiles := updTile w.tiles y x Tile.floor } := by
  by_cases hc : oobCheck w.width w.height w.border x y
  · rw [SetTile_floor_oob w x y hc] at hs
    exact absurd hs (by simp)
  · have hok := SetTile_floor_ok w x y (Bool.of_not_eq_true hc)
    rw [hok] at hs
    injection hs with h1 h2
    exact ⟨Bool.of_not_eq_true hc, h2.symm⟩

/-- A floor write never erases a floor. -/
theorem SetTile_floor_mono (w : World) (x y a b : Int) (h : w.tiles b a = Tile.floor) :
    (SetTile w x y Tile.floor).2.tiles b a = Tile.floor := by
  unfold SetTile
  by_cases hc : Tile.floor = Tile.floor ∧ oobCheck w.width w.height w.border x y
  · rw [if_pos hc]
    exact h
  · rw [if_neg hc]
    show updTile w.tiles y x Tile.floor b a = Tile.floor
    unfold updTile
    by_cases hp : b = y ∧ a = x
    · rw [if_pos hp]
    · rw [if_neg hp]
      exact h

/-- A floor write keeps every cell void-or-floor. -/
theorem onlyVF_SetTile_floor (w : World) (x y : Int) (h : onlyVF w) :
    onlyVF (SetTile w x y Tile.floor).2 := by
  intro b a
  unfold SetTile
  by_cases hc : Tile.floor = Tile.floor ∧ oobCheck w.width w.height w.border x y
  · rw [if_pos hc]
    exact h b a
  · rw [if_neg hc]
    show updTile w.tiles y x Tile.floor b a = Tile.void ∨
      updTile w.tiles y x Tile.floor b a = Tile.floor
    unfold updTile
    by_cases hp : b = y ∧ a = x
    · rw [if_pos hp]
      exact Or.inr rfl
    · rw [if_neg hp]
      exact h b a

/-- The block carve leaves `Width`, `Height`, `Border` and
`CorridorSize` unchanged. -/
theorem rwBlock_fields : ∀ (cells : List (Int × Int)) (w : World) (tc : Int),
    (rwBlock cells w tc).1.width = w.width ∧ (rwBlock cells w tc).1.height = w.height ∧
    (rwBlock cells w tc).1.border = w.border ∧
    (rwBlock cells w tc).1.corridorSize = w.corridorSize
  | [], _, _ => ⟨rfl, rfl, rfl, rfl⟩
  | c :: rest, w, tc => by
    unfold rwBlock
    cases hg : GetTile w c.1 c.2 with
    | ok t =>
      dsimp only
      by_cases hv : t ≠ Tile.void
      · rw [if_pos hv]
        exact rwBlock_fields rest w (tc + 1 - 1)
      · rw [if_neg hv]
        rcases hs : SetTile w c.1 c.2 Tile.floor with ⟨r, w'⟩
        have hfr := SetTile_frame w c.1 c.2 Tile.floor
        rw [hs] at hfr
        cases r with
        | error e => exact ⟨hfr.1, hfr.2.1, hfr.2.2.1, hfr.2.2.2.1⟩
        | ok u =>
          have ih := rwBlock_fields rest w' (tc + 1)
          exact ⟨ih.1.trans hfr.1, ih.2.1.trans hfr.2.1, ih.2.2.1.trans hfr.2.2.1,
            ih.2.2.2.trans hfr.2.2.2.1⟩
    | error e =>
      dsimp only
      rcases hs : SetTile w c.1 c.2 Tile.floor with ⟨r, w'⟩
      have hfr := SetTile_frame w c.1 c.2 Tile.floor
      rw [hs] at hfr
      cases r with
      | error e' => exact ⟨hfr.1, hfr.2.1, hfr.2.2.1, hfr.2.2.2.1⟩
      | ok u =>
        have ih := rwBlock_fields rest w' (tc + 1)
        exact ⟨ih.1.trans hfr.1, ih.2.1.trans hfr.2.1, ih.2.2.1.trans hfr.2.2.1,
          ih.2.2.2.trans hfr.2.2.2.1⟩

/-- The block carve never erases a floor. -/
theorem rwBlock_floor_mono : ∀ (cells : List (Int × Int)) (w : World) (tc : Int) (a b : Int),
    w.tiles b a = Tile.floor → (rwBlock cells w tc).1.tiles b a = Tile.floor
  | [], _, _, _, _, h => h
  | c :: rest, w, tc, a, b, h => by
    unfold rwBlock
    cases hg : GetTile w c.1 c.2 with
    | ok t =>
      dsimp only
      by_cases hv : t ≠ Tile.void
      · rw [if_pos hv]
        exact rwBlock_floor_mono rest w (tc + 1 - 1) a b h
      · rw [if_neg hv]
        rcases hs : SetTile w c.1 c.2 Tile.floor with ⟨r, w'⟩
        have hw' : w'.tiles b a = Tile.floor := by
          have hm := SetTile_floor_mono w c.1 c.2 a b h
          rw [hs] at hm
          exact hm
        cases r with
        | error e => exact hw'
        | ok u => exact rwBlock_floor_mono rest w' (tc + 1) a b hw'
    | error e =>
      dsimp only
      rcases hs : SetTile w c.1 c.2 Tile.floor with ⟨r, w'⟩
      have hw' : w'.tiles b a = Tile.floor := by
        have hm := SetTile_floor_mono w c.1 c.2 a b h
        rw [hs] at hm
        exact hm
      cases r with
      | error e' => exact hw'
      | ok u => exact rwBlock_floor_mono rest w' (tc + 1) a b hw'

/-- The block carve keeps every cell void-or-floor. -/
theorem rwBlock_onlyVF : ∀ (cells : List (Int × Int)) (w : World) (tc : Int),
    onlyVF w → onlyVF (rwBlock cells w tc).1
  | [], _, _, h => h
  | c :: rest, w, tc, h => by
    unfold rwBlock
    cases hg : GetTile w c.1 c.2 with
    | ok t =>
      dsimp only
      by_cases hv : t ≠ Tile.void
      · rw [if_pos hv]
        exact rwBlock_onlyVF rest w (tc + 1 - 1) h
      · rw [if_neg hv]
        rcases hs : SetTile w c.1 c.2 Tile.floor with ⟨r, w'⟩
        have hw' : onlyVF w' := by
          have hm := onlyVF_SetTile_floor w c.1 c.2 h
          rw [hs] at hm
          exact hm
        cases r with
        | error e => exact hw'
        | ok u => exact rwBlock_onlyVF rest w' (tc + 1) hw'
    | error e =>
      dsimp only
      rcases hs : SetTile w c.1 c.2 Tile.floor with ⟨r, w'⟩
      have hw' : onlyVF w' := by
        have hm := onlyVF_SetTile_floor w c.1 c.2 h
        rw [hs] at hm
        exact hm
      cases r with
      | error e' => exact hw'
      | ok u => exact rwBlock_onlyVF rest w' (tc + 1) hw'

/-- Membership in the carve block of cursor `(x, y)`. -/
theorem rwBlockCells_mem (x y cs a b : Int) :
    (a, b) ∈ rwBlockCells x y cs ↔
      x - cs.tdiv 2 ≤ a ∧ a < x + cs.tdiv 2 ∧ y - cs.tdiv 2 ≤ b ∧ b < y + cs.tdiv 2 := by
  unfold rwBlockCells
  rw [List.mem_flatMap]
  constructor
  · rintro ⟨dx, hdx, hmem⟩
    rw [List.mem_map] at hmem
    obtain ⟨dy, hdy, hpq⟩ := hmem
    rw [intRange_mem] at hdx
    rw [intRange_mem] at hdy
    injection hpq with h1 h2
    subst h1
    subst h2
    exact ⟨hdx.1, hdx.2, hdy.1, hdy.2⟩
  · intro h
    refine ⟨a, ?_, ?_⟩
    · rw [intRange_mem]
      exact ⟨h.1, h.2.1⟩
    · rw [List.mem_map]
      exact ⟨b, by rw [intRange_mem]; exact ⟨h.2.2.1, h.2.2.2⟩, rfl⟩

/-- With `CorridorSize ≤ 1` the carve block is empty, so the carve
writes nothing and the tile counter never advances. -/
theorem rwBlockCells_empty (x y cs : Int) (h : cs ≤ 1) : rwBlockCells x y cs = [] := by
  have ht := tdiv2_nonpos cs h
  unfold rwBlockCells
  have hr : intRange (x - cs.tdiv 2) (x + cs.tdiv 2) = [] := by
    unfold intRange
    have h0 : (x + cs.tdiv 2 - (x - cs.tdiv 2)).toNat = 0 := by omega
    rw [h0]
    rfl
  rw [hr]
  rfl

/-- A block carve that was not abandoned certifies every block cell:
the cell passed the bounds test and holds floor in the resulting
grid. -/
theorem rwBlock_ok_cells : ∀ (cells : List (Int × Int)) (w : World) (tc : Int)
    (w' : World) (tc' : Int), onlyVF w →
    rwBlock cells w tc = (w', tc', false) →
    ∀ c ∈ cells, oobCheck w.width w.height w.border c.1 c.2 = false ∧
      w'.tiles c.2 c.1 = Tile.floor
  | [], _, _, _, _, _, _, c, hc => absurd hc (List.not_mem_nil c)
  | c0 :: rest, w, tc, w', tc', hvf, heq, c, hc => by
    unfold rwBlock at heq
    cases hg : GetTile w c0.1 c0.2 with
    | ok t =>
      rw [hg] at heq
      dsimp only at heq
      by_cases hv : t ≠ Tile.void
      · rw [if_pos hv] at heq
        rcases List.mem_cons.mp hc with hceq | hcr
        · subst hceq
          have hgo := GetTile_ok_oob w c.1 c.2 t hg
          refine ⟨hgo.1, ?_⟩
          have hfl : w.tiles c.2 c.1 = Tile.floor := by
            rcases hvf c.2 c.1 with hvd | hfl
            · rw [hgo.2] at hvd
              exact absurd hvd hv
            · exact hfl
          have hm := rwBlock_floor_mono rest w (tc + 1 - 1) c.1 c.2 hfl
          rw [heq] at hm
          exact hm
        · exact rwBlock_ok_cells rest w (tc + 1 - 1) w' tc' hvf heq c hcr
      · rw [if_neg hv] at heq
        rcases hs : SetTile w c0.1 c0.2 Tile.floor with ⟨r, w1⟩
        rw [hs] at heq
        cases r with
        | error e =>
          dsimp only at heq
          exact absurd heq (by simp)
        | ok u =>
          dsimp only at heq
          have hok := SetTile_floor_ok_iff w c0.1 c0.2 u w1 hs
          have hw1vf : onlyVF w1 := by
            have hm := onlyVF_SetTile_floor w c0.1 c0.2 hvf
            rw [hs] at hm
            exact hm
          rcases List.mem_cons.mp hc with hceq | hcr
          · subst hceq
            refine ⟨hok.1, ?_⟩
            have hfl1 : w1.tiles c.2 c.1 = Tile.floor := by
              rw [hok.2]
              show updTile w.tiles c.2 c.1 Tile.floor c.2 c.1 = Tile.floor
              unfold updTile
              rw [if_pos ⟨rfl, rfl⟩]
            have hm := rwBlock_floor_mono rest w1 (tc + 1) c.1 c.2 hfl1
            rw [heq] at hm
            exact hm
          · have hr := rwBlock_ok_cells rest w1 (tc + 1) w' tc' hw1vf heq c hcr
            rw [hok.2] at hr
            exact hr
    | error e =>
      rw [hg] at heq
      dsimp only at heq
      rcases hs : SetTile w c0.1 c0.2 Tile.floor with ⟨r, w1⟩
      rw [hs] at heq
      cases r with
      | error e' =>
        dsimp only at heq
        exact absurd heq (by simp)
      | ok u =>
        have hoob := GetTile_error_oob w c0.1 c0.2 e hg
        rw [SetTile_floor_oob w c0.1 c0.2 hoob] at hs
        exact absurd hs (by simp)

/-- The carving loop leaves `Width`, `Height` and `Border` unchanged in
every outcome. -/
theorem rwLoop_fields (wd ht cs N : Int) (rnd : Nat → Nat) (tmr : Nat → TimerSignal) :
    ∀ (fuel : Nat) (w : World) (x y minX maxX minY maxY tc : Int) (rk tk : Nat),
      (rwOutWorld (rwLoop wd ht cs N fuel w x y minX maxX minY maxY tc rnd tmr rk tk)).width
        = w.width ∧
      (rwOutWorld (rwLoop wd ht cs N fuel w x y minX maxX minY maxY tc rnd tmr rk tk)).height
        = w.height ∧
      (rwOutWorld (rwLoop wd ht cs N fuel w x y minX maxX minY maxY tc rnd tmr rk tk)).border
        = w.border
  | 0, _, _, _, _, _, _, _, _, _, _ => ⟨rfl, rfl, rfl⟩
  | fuel + 1, w, x, y, minX, maxX, minY, maxY, tc, rk, tk => by
    simp only [rwLoop]
    by_cases htc : tc < N
    · rw [if_pos htc]
      cases tmr tk with
      | terr => exact ⟨rfl, rfl, rfl⟩
      | tretry => exact ⟨rfl, rfl, rfl⟩
      | tok =>
        dsimp only
        rcases hb : rwBlock (rwBlockCells (if rnd rk % 4 = 0 then x - 1 else
            if rnd rk % 4 = 1 then x + 1 else x)
            (if rnd rk % 4 = 2 then y - 1 else if rnd rk % 4 = 3 then y + 1 else y) cs) w tc
          with ⟨w', tc', aborted⟩
        have hfr := rwBlock_fields (rwBlockCells (if rnd rk % 4 = 0 then x - 1 else
            if rnd rk % 4 = 1 then x + 1 else x)
            (if rnd rk % 4 = 2 then y - 1 else if rnd rk % 4 = 3 then y + 1 else y) cs) w tc
        rw [hb] at hfr
        cases aborted with
        | true =>
          dsimp only
          have ih := rwLoop_fields wd ht cs N rnd tmr fuel w' (wd.tdiv 2) (ht.tdiv 2)
            minX maxX minY maxY tc' (rk + 1) (tk + 1)
          exact ⟨ih.1.trans hfr.1, ih.2.1.trans hfr.2.1, ih.2.2.trans hfr.2.2.1⟩
        | false =>
          dsimp only
          have ih := rwLoop_fields wd ht cs N rnd tmr fuel w'
            (if rnd rk % 4 = 0 then x - 1 else if rnd rk % 4 = 1 then x + 1 else x)
            (if rnd rk % 4 = 2 then y - 1 else if rnd rk % 4 = 3 then y + 1 else y)
            (minInt minX (if rnd rk % 4 = 0 then x - 1 else if rnd rk % 4 = 1 then x + 1 else x))
            (maxInt maxX (if rnd rk % 4 = 0 then x - 1 else if rnd rk % 4 = 1 then x + 1 else x))
            (minInt minY (if rnd rk % 4 = 2 then y - 1 else if rnd rk % 4 = 3 then y + 1 else y))
            (maxInt maxY (if rnd rk % 4 = 2 then y - 1 else if rnd rk % 4 = 3 then y + 1 else y))
            tc' (rk + 1) (tk + 1)
          exact ⟨ih.1.trans hfr.1, ih.2.1.trans hfr.2.1, ih.2.2.trans hfr.2.2.1⟩
    · rw [if_neg htc]
      exact ⟨rfl, rfl, rfl⟩

/-- `minInt` returns one of its arguments, the smaller one. -/
theorem minInt_cases (a c : Int) : minInt a c = a ∧ a ≤ c ∨ minInt a c = c ∧ c ≤ a := by
  unfold minInt
  by_cases h : a < c
  · rw [if_pos h]
    exact Or.inl ⟨rfl, by omega⟩
  · rw [if_neg h]
    exact Or.inr ⟨rfl, by omega⟩

/-- `maxInt` returns one of its arguments, the larger one. -/
theorem maxInt_cases (a c : Int) : maxInt a c = a ∧ c ≤ a ∨ maxInt a c = c ∧ a ≤ c := by
  unfold maxInt
  by_cases h : a > c
  · rw [if_pos h]
    exact Or.inl ⟨rfl, by omega⟩
  · rw [if_neg h]
    exact Or.inr ⟨rfl, by omega⟩

/-- Floor-monotone world evolution preserves the box witnesses. -/
theorem rwWit_mono (w w1 : World) (minX maxX minY maxY : Int)
    (hmono : ∀ a c : Int, w.tiles c a = Tile.floor → w1.tiles c a = Tile.floor)
    (h : rwWit w minX maxX minY maxY) : rwWit w1 minX maxX minY maxY := by
  obtain ⟨⟨h1, y1, hy1⟩, ⟨h2, y2, hy2⟩, ⟨x1, hx1, hfx1⟩, ⟨x2, hx2, hfx2⟩⟩ := h
  exact ⟨⟨h1, y1, hmono _ _ hy1⟩, ⟨h2, y2, hmono _ _ hy2⟩, ⟨x1, hx1, hmono _ _ hfx1⟩,
    ⟨x2, hx2, hmono _ _ hfx2⟩⟩

/-- A fully carved block around cursor `(xc, yc)` updates the cursor
bounding box to one whose four extremes carry floor witnesses in
columns `≥ 1`: the cursor cell itself is carved, and the block's edge
cells passing the bounds test pin the cursor at least `Border + cs/2`
away from the low edges. -/
theorem rwStep_wit (wd ht b cs : Int) (hb : 0 ≤ b) (hcs2 : 2 ≤ cs)
    (w w1 : World) (tc tc1 : Int) (xc yc minX maxX minY maxY : Int)
    (hww : w.width = wd) (hwh : w.height = ht) (hwb : w.border = b)
    (hvf : onlyVF w)
    (hblk : rwBlock (rwBlockCells xc yc cs) w tc = (w1, tc1, false))
    (hrec : (minX = wd ∧ maxX = 0 ∧ minY = ht ∧ maxY = 0) ∨ rwWit w minX maxX minY maxY) :
    rwWit w1 (minInt minX xc) (maxInt maxX xc) (minInt minY yc) (maxInt maxY yc) := by
  have ht1 := tdiv2_pos cs hcs2
  have hcells := rwBlock_ok_cells (rwBlockCells xc yc cs) w tc w1 tc1 hvf hblk
  have hmono : ∀ a c : Int, w.tiles c a = Tile.floor → w1.tiles c a = Tile.floor := by
    intro a c hf
    have hm := rwBlock_floor_mono (rwBlockCells xc yc cs) w tc a c hf
    rw [hblk] at hm
    exact hm
  have hcur := hcells (xc, yc) (by rw [rwBlockCells_mem]; omega)
  have hlft := hcells (xc - cs.tdiv 2, yc) (by rw [rwBlockCells_mem]; omega)
  have htop := hcells (xc, yc - cs.tdiv 2) (by rw [rwBlockCells_mem]; omega)
  dsimp only at hcur hlft htop
  rw [hww, hwh, hwb, oobCheck_false_iff] at hcur hlft htop
  have hxc1 : 1 ≤ xc := by omega
  have hyc1 : 1 ≤ yc := by omega
  have hxcw : xc < wd := by omega
  have hych : yc < ht := by omega
  have hflc : w1.tiles yc xc = Tile.floor := hcur.2
  rcases hrec with ⟨e1, e2, e3, e4⟩ | hwit
  · rw [e1, e2, e3, e4]
    have hm1 : minInt wd xc = xc := by unfold minInt; rw [if_neg (by omega)]
    have hm2 : maxInt 0 xc = xc := by unfold maxInt; rw [if_neg (by omega)]
    have hm3 : minInt ht yc = yc := by unfold minInt; rw [if_neg (by omega)]
    have hm4 : maxInt 0 yc = yc := by unfold maxInt; rw [if_neg (by omega)]
    rw [hm1, hm2, hm3, hm4]
    exact ⟨⟨hxc1, yc, hflc⟩, ⟨hxc1, yc, hflc⟩, ⟨xc, hxc1, hflc⟩, ⟨xc, hxc1, hflc⟩⟩
  · obtain ⟨⟨hw1, ym1, hfm1⟩, ⟨hw2, ym2, hfm2⟩, ⟨xm1, hxm1, hfxm1⟩, ⟨xm2, hxm2, hfxm2⟩⟩ := hwit
    refine ⟨?_, ?_, ?_, ?_⟩
    · rcases minInt_cases minX xc with ⟨he, _⟩ | ⟨he, _⟩
      · rw [he]
        exact ⟨hw1, ym1, hmono _ _ hfm1⟩
      · rw [he]
        exact ⟨hxc1, yc, hflc⟩
    · rcases maxInt_cases maxX xc with ⟨he, _⟩ | ⟨he, _⟩
      · rw [he]
        exact ⟨hw2, ym2, hmono _ _ hfm2⟩
      · rw [he]
        exact ⟨hxc1, yc, hflc⟩
    · rcases minInt_cases minY yc with ⟨he, _⟩ | ⟨he, _⟩
      · rw [he]
        exact ⟨xm1, hxm1, hmono _ _ hfxm1⟩
      · rw [he]
        exact ⟨xc, hxc1, hflc⟩
    · rcases maxInt_cases maxY yc with ⟨he, _⟩ | ⟨he, _⟩
      · rw [he]
        exact ⟨xm2, hxm2, hmono _ _ hfxm2⟩
      · rw [he]
        exact ⟨xc, hxc1, hflc⟩

/-- Invariant of the carving loop: when the loop runs to completion,
either nothing was ever recorded (the bounding box still holds its
sentinel values `minX = Width, maxX = 0, minY = Height, maxY = 0`), or
the four bounding-box extremes carry floor-cell witnesses in columns
`≥ 1`.  With `CorridorSize ≤ 1` the tile counter never advances, so a
positive budget rules the completed outcome out. -/
theorem rwLoop_box_inv (wd ht cs N b : Int) (rnd : Nat → Nat) (tmr : Nat → TimerSignal)
    (hN : 1 ≤ N) (hb : 0 ≤ b) :
    ∀ (fuel : Nat) (w : World) (x y minX maxX minY maxY tc : Int) (rk tk : Nat)
      (w' : World) (minX' maxX' minY' maxY' : Int) (rk' tk' : Nat),
      onlyVF w → w.width = wd → w.height = ht → w.border = b →
      ((cs ≤ 1 ∧ tc ≤ 0) ∨
        (2 ≤ cs ∧ ((minX = wd ∧ maxX = 0 ∧ minY = ht ∧ maxY = 0) ∨
          rwWit w minX maxX minY maxY))) →
      rwLoop wd ht cs N fuel w x y minX maxX minY maxY tc rnd tmr rk tk =
        RWLoopOut.done w' minX' maxX' minY' maxY' rk' tk' →
      ((minX' = wd ∧ maxX' = 0 ∧ minY' = ht ∧ maxY' = 0) ∨ rwWit w' minX' maxX' minY' maxY')
  | 0, w, x, y, minX, maxX, minY, maxY, tc, rk, tk, w', minX', maxX', minY', maxY', rk', tk',
      hvf, hww, hwh, hwb, hinv, heq => by
    exact absurd heq (by simp [rwLoop])
  | fuel + 1, w, x, y, minX, maxX, minY, maxY, tc, rk, tk,
      w', minX', maxX', minY', maxY', rk', tk', hvf, hww, hwh, hwb, hinv, heq => by
    simp only [rwLoop] at heq
    by_cases htc : tc < N
    · rw [if_pos htc] at heq
      cases htm : tmr tk with
      | terr => rw [htm] at heq; exact absurd heq (by simp)
      | tretry => rw [htm] at heq; exact absurd heq (by simp)
      | tok =>
        rw [htm] at heq
        dsimp only at heq
        set xc : Int := (if rnd rk % 4 = 0 then x - 1 else
          if rnd rk % 4 = 1 then x + 1 else x) with hxc
        set yc : Int := (if rnd rk % 4 = 2 then y - 1 else
          if rnd rk % 4 = 3 then y + 1 else y) with hyc
        rcases hblk : rwBlock (rwBlockCells xc yc cs) w tc with ⟨w1, tc1, ab⟩
        rw [hblk] at heq
        have hfr := rwBlock_fields (rwBlockCells xc yc cs) w tc
        rw [hblk] at hfr
        have hvf1 : onlyVF w1 := by
          have hm := rwBlock_onlyVF (rwBlockCells xc yc cs) w tc hvf
          rw [hblk] at hm
          exact hm
        cases ab with
        | true =>
          dsimp only at heq
          have hcs2 : 2 ≤ cs := by
            by_contra hno
            have hcs1 : cs ≤ 1 := by omega
            rw [rwBlockCells_empty xc yc cs hcs1] at hblk
            simp [rwBlock] at hblk
          have hrec : (minX = wd ∧ maxX = 0 ∧ minY = ht ∧ maxY = 0) ∨
              rwWit w minX maxX minY maxY := by
            rcases hinv with ⟨hcs1, _⟩ | ⟨_, hrec⟩
            · exact absurd hcs2 (by omega)
            · exact hrec
          have hmono : ∀ a c : Int, w.tiles c a = Tile.floor → w1.tiles c a = Tile.floor := by
            intro a c hf
            have hm := rwBlock_floor_mono (rwBlockCells xc yc cs) w tc a c hf
            rw [hblk] at hm
            exact hm
          refine rwLoop_box_inv wd ht cs N b rnd tmr hN hb fuel w1 (wd.tdiv 2) (ht.tdiv 2)
            minX maxX minY maxY tc1 (rk + 1) (tk + 1) w' minX' maxX' minY' maxY' rk' tk'
            hvf1 (hfr.1.trans hww) (hfr.2.1.trans hwh) (hfr.2.2.1.trans hwb) ?_ heq
          refine Or.inr ⟨hcs2, ?_⟩
          rcases hrec with hnr | hwit
          · exact Or.inl hnr
          · exact Or.inr (rwWit_mono w w1 minX maxX minY maxY hmono hwit)
        | false =>
          dsimp only at heq
          by_cases hcs1 : cs ≤ 1
          · rw [rwBlockCells_empty xc yc cs hcs1] at hblk
            have hblk2 : rwBlock ([] : List (Int × Int)) w tc = (w, tc, false) := rfl
            rw [hblk2] at hblk
            injection hblk with hbw hbr
            injection hbr with hbt hbb
            have htc0 : tc ≤ 0 := by
              rcases hinv with ⟨_, htc0⟩ | ⟨hcs2, _⟩
              · exact htc0
              · exact absurd hcs2 (by omega)
            refine rwLoop_box_inv wd ht cs N b rnd tmr hN hb fuel w1 xc yc
              (minInt minX xc) (maxInt maxX xc) (minInt minY yc) (maxInt maxY yc)
              tc1 (rk + 1) (tk + 1) w' minX' maxX' minY' maxY' rk' tk'
              hvf1 (hfr.1.trans hww) (hfr.2.1.trans hwh) (hfr.2.2.1.trans hwb) ?_ heq
            exact Or.inl ⟨hcs1, by omega⟩
          · have hcs2 : 2 ≤ cs := by omega
            have hrec : (minX = wd ∧ maxX = 0 ∧ minY = ht ∧ maxY = 0) ∨
                rwWit w minX maxX minY maxY := by
              rcases hinv with ⟨hcs1', _⟩ | ⟨_, hrec⟩
              · exact absurd hcs1' hcs1
              · exact hrec
            have hwit1 := rwStep_wit wd ht b cs hb hcs2 w w1 tc tc1 xc yc
              minX maxX minY maxY hww hwh hwb hvf hblk hrec
            refine rwLoop_box_inv wd ht cs N b rnd tmr hN hb fuel w1 xc yc
              (minInt minX xc) (maxInt maxX xc) (minInt minY yc) (maxInt maxY yc)
              tc1 (rk + 1) (tk + 1) w' minX' maxX' minY' maxY' rk' tk'
              hvf1 (hfr.1.trans hww) (hfr.2.1.trans hwh) (hfr.2.2.1.trans hwb) ?_ heq
            exact Or.inr ⟨hcs2, Or.inr hwit1⟩
    · rw [if_neg htc] at heq
      injection heq with e1 e2 e3 e4 e5 e6 e7
      rcases hinv with ⟨_, htc0⟩ | ⟨_, hrec⟩
      · exact absurd (show tc < N by omega) htc
      · rw [← e1, ← e2, ← e3, ← e4, ← e5]
        exact hrec

/-- A successful `rwGen` run yields a grid whose floor cells span at
least half the width or half the height. -/
theorem rwGen_success_box (N : Int) (rnd : Nat → Nat) (tmr : Nat → TimerSignal)
    (fuelL : Nat) (hN : 1 ≤ N) :
    ∀ (fuelR : Nat) (w : World) (rk tk : Nat) (w2 : World),
      1 ≤ w.width → 1 ≤ w.height → 0 ≤ w.border →
      rwGen N rnd tmr fuelL fuelR w rk tk = (Except.ok (), w2) →
      floorBoxSpans w2
  | 0, w, rk, tk, w2, hw, hh, hb, heq => by
    exact absurd heq (by simp [rwGen])
  | fuelR + 1, w, rk, tk, w2, hw, hh, hb, heq => by
    simp only [rwGen] at heq
    cases hL : rwLoop w.width w.height (ClearTiles w w.width w.height).corridorSize N fuelL
        (ClearTiles w w.width w.height)
        (w.width.tdiv 2) (w.height.tdiv 2) w.width 0 w.height 0 0 rnd tmr rk tk with
    | noFuel w' =>
      rw [hL] at heq
      exact absurd heq (by simp)
    | fail w' =>
      rw [hL] at heq
      exact absurd heq (by simp)
    | retryRq w' rk' tk' =>
      rw [hL] at heq
      dsimp only at heq
      have hfl := rwLoop_fields w.width w.height (ClearTiles w w.width w.height).corridorSize
        N rnd tmr fuelL (ClearTiles w w.width w.height) (w.width.tdiv 2) (w.height.tdiv 2)
        w.width 0 w.height 0 0 rk tk
      rw [hL] at hfl
      have h1 : w'.width = w.width := hfl.1
      have h2 : w'.height = w.height := hfl.2.1
      have h3 : w'.border = w.border := hfl.2.2
      exact rwGen_success_box N rnd tmr fuelL hN fuelR w' rk' tk' w2
        (by rw [h1]; exact hw) (by rw [h2]; exact hh) (by rw [h3]; exact hb) heq
    | done w' minX maxX minY maxY rk' tk' =>
      rw [hL] at heq
      dsimp only at heq
      have hfl := rwLoop_fields w.width w.height (ClearTiles w w.width w.height).corridorSize
        N rnd tmr fuelL (ClearTiles w w.width w.height) (w.width.tdiv 2) (w.height.tdiv 2)
        w.width 0 w.height 0 0 rk tk
      rw [hL] at hfl
      have h1 : w'.width = w.width := hfl.1
      have h2 : w'.height = w.height := hfl.2.1
      have h3 : w'.border = w.border := hfl.2.2
      have hinv0 : ((ClearTiles w w.width w.height).corridorSize ≤ 1 ∧ (0 : Int) ≤ 0) ∨
          (2 ≤ (ClearTiles w w.width w.height).corridorSize ∧
            ((w.width = w.width ∧ (0 : Int) = 0 ∧ w.height = w.height ∧ (0 : Int) = 0) ∨
              rwWit (ClearTiles w w.width w.height) w.width 0 w.height 0)) := by
        by_cases hcs : (ClearTiles w w.width w.height).corridorSize ≤ 1
        · exact Or.inl ⟨hcs, le_refl 0⟩
        · exact Or.inr ⟨by omega, Or.inl ⟨rfl, rfl, rfl, rfl⟩⟩
      have hout := rwLoop_box_inv w.width w.height
        (ClearTiles w w.width w.height).corridorSize N w.border rnd tmr hN hb fuelL
        (ClearTiles w w.width w.height) (w.width.tdiv 2) (w.height.tdiv 2)
        w.width 0 w.height 0 0 rk tk w' minX maxX minY maxY rk' tk'
        (fun _ _ => Or.inl rfl) rfl rfl rfl hinv0 hL
      by_cases hbd : maxX - minX < w.width.tdiv 2 ∧ maxY - minY < w.height.tdiv 2
      · rw [if_pos hbd] at heq
        exact rwGen_success_box N rnd tmr fuelL hN fuelR w' rk' tk' w2
          (by rw [h1]; exact hw) (by rw [h2]; exact hh) (by rw [h3]; exact hb) heq
      · rw [if_neg hbd] at heq
        rcases hout with ⟨e1, e2, e3, e4⟩ | hwit
        · refine absurd ?_ hbd
          constructor
          · rw [e1, e2]
            have hnn := tdiv2_nonneg w.width (by omega)
            omega
          · rw [e3, e4]
            have hnn := tdiv2_nonneg w.height (by omega)
            omega
        · by_cases hcv : ¬(convScan (SetTile w' 0 (minY + (maxY - minY).tdiv 2) Tile.wall).2
              (minY + (maxY - minY).tdiv 2) (intRange minX maxX) false false = true ∨
              false = true)
          · rw [if_pos hcv] at heq
            have hfr := SetTile_frame w' 0 (minY + (maxY - minY).tdiv 2) Tile.wall
            exact rwGen_success_box N rnd tmr fuelL hN fuelR _ rk' tk' w2
              (by rw [hfr.1, h1]; exact hw) (by rw [hfr.2.1, h2]; exact hh)
              (by rw [hfr.2.2.1, h3]; exact hb) heq
          · rw [if_neg hcv] at heq
            injection heq with he1 he2
            subst he2
            obtain ⟨⟨hminx1, y1, hfy1⟩, ⟨hmaxx1, y2, hfy2⟩,
              ⟨x1, hx11, hfx1⟩, ⟨x2, hx21, hfx2⟩⟩ := hwit
            have hkeep : ∀ a c : Int, 1 ≤ a → w'.tiles c a = Tile.floor →
                (SetTile w' 0 (minY + (maxY - minY).tdiv 2) Tile.wall).2.tiles c a =
                  Tile.floor := by
              intro a c ha hf
              rw [SetTile_other w' 0 (minY + (maxY - minY).tdiv 2) Tile.wall
                (fun hfc => Tile.noConfusion hfc) c a (fun hp => absurd hp.2 (by omega))]
              exact hf
            have hfr := SetTile_frame w' 0 (minY + (maxY - minY).tdiv 2) Tile.wall
            rcases not_and_or.mp hbd with hxs | hys
            · left
              refine ⟨minX, y1, maxX, y2, hkeep _ _ hminx1 hfy1, hkeep _ _ hmaxx1 hfy2, ?_⟩
              rw [hfr.1, h1]
              omega
            · right
              refine ⟨x1, minY, x2, maxY, hkeep _ _ hx11 hfx1, hkeep _ _ hx21 hfx2, ?_⟩
              rw [hfr.2.1, h2]
              omega

/-- C9: for every tile budget `N ≥ 1` (on a world of positive
dimensions and non-negative border) and every random and timer stream
under which `GenerateRandomWalk(N)` succeeds, the bounding box of the
floor cells of the resulting grid spans at least half the grid width or
at least half the grid height: two floor cells lie at horizontal
distance `≥ Width/2`, or two at vertical distance `≥ Height/2`. -/
theorem GenerateRandomWalk_bounding_box (w : World) (N : Int) (rnd : Nat → Nat)
    (tmr : Nat → TimerSignal) (fR fL : Nat)
    (hN : 1 ≤ N) (hw : 1 ≤ w.width) (hh : 1 ≤ w.height) (hb : 0 ≤ w.border)
    (hrun : (GenerateRandomWalk w N rnd tmr fR fL).1 = Except.ok ()) :
    floorBoxSpans (GenerateRandomWalk w N rnd tmr fR fL).2 := by
  have hpair : GenerateRandomWalk w N rnd tmr fR fL =
      ((GenerateRandomWalk w N rnd tmr fR fL).1,
        (GenerateRandomWalk w N rnd tmr fR fL).2) := rfl
  rw [hrun] at hpair
  unfold GenerateRandomWalk at hpair
  exact rwGen_success_box N rnd tmr fL hN fR w 0 0
    (GenerateRandomWalk w N rnd tmr fR fL).2 hw hh hb hpair

/-- Witness for C9: the deterministic U-shaped walk of the C10 vehicle
succeeds, and its grid's floor bounding box spans half the grid. -/
theorem GenerateRandomWalk_bounding_box_w :
    floorBoxSpans (GenerateRandomWalk rwWorld 28 rwStream rwTimer 1 20).2 :=
  GenerateRandomWalk_bounding_box rwWorld 28 rwStream rwTimer 1 20
    (by decide) (by decide) (by decide) (by decide) rfl
